import Mathlib

/-!
Verification of the Quartr extraction scripts (get_meta.py, meta_to_txt.py,
slides_to_txt.py, manager.py) against their natural-language specification.

Embedding conventions:
* JSON payloads are modelled by the inductive type `Json` (objects keep key
  order, as Python dicts do; JSON numbers are modelled as integers, which is
  the only case the scripts' `isinstance(_, int)` checks accept).
* Python strings are Lean `String`s; `str.strip()` is `pyStrip` (ASCII
  whitespace), `str.lower()` is `pyLower`, `"\n".join` is `joinNL`, and
  Python's lexicographic string comparison is `pyStrLe` on code points.
* Network calls are function parameters: the transcript-list endpoint becomes
  the list of responses it serves in order, the deck-detail endpoint a
  function from deck id to response, PDF download + per-page text extraction
  a function from URL to the list of raw page texts.
* Filesystem writes are modelled by returning the file names and contents a
  run would produce; `raise` becomes `Option`/`Except` error results.
* The one float in the scripts (slide-coverage ratio) is modelled in `ℚ`.
-/

namespace Quartr

/-! ## Python string helpers -/

/-- ASCII whitespace, as recognised by Python's `str.strip()` and `\s`
(the scripts only ever meet ASCII whitespace). -/
def isPySpace (c : Char) : Bool :=
  c = ' ' || c = '\t' || c = '\n' || c = '\x0d' || c = '\x0b' || c = '\x0c'

/-- Drop the characters satisfying `p` from both ends of a character list. -/
def stripChars (p : Char → Bool) (l : List Char) : List Char :=
  ((l.dropWhile p).reverse.dropWhile p).reverse

/-- Drop the characters satisfying `p` from the right end only
(Python's `str.rstrip()`). -/
def rstripChars (p : Char → Bool) (l : List Char) : List Char :=
  (l.reverse.dropWhile p).reverse

/-- Python's `str.strip()` (no arguments): remove leading and trailing
whitespace. -/
def pyStrip (s : String) : String :=
  String.mk (stripChars isPySpace s.data)

/-- Python's `str.lower()`. -/
def pyLower (s : String) : String :=
  String.mk (s.data.map Char.toLower)

/-- Python's `"\n".join(parts)`. -/
def joinNL : List String → String
  | [] => ""
  | [s] => s
  | s :: t => s ++ "\n" ++ joinNL t

/-- Replace every maximal run of whitespace by the single character `rep`
(Python's `re.sub(r"\s+", rep, s)`); `prevWs` records whether the previous
character belonged to a run already replaced. -/
def collapse_ws_runs (rep : Char) (prevWs : Bool) : List Char → List Char
  | [] => []
  | c :: t =>
    if isPySpace c then
      if prevWs then collapse_ws_runs rep true t
      else rep :: collapse_ws_runs rep true t
    else c :: collapse_ws_runs rep false t

/-- Tail of the adjacent-duplicate removal loop of
`_deep_collect_text_fields`: `prev` is the previously kept string. -/
def dedup_adjacent_aux (prev : String) : List String → List String
  | [] => []
  | s :: t => if s = prev then dedup_adjacent_aux prev t else s :: dedup_adjacent_aux s t

/-- The `cleaned`/`prev` loop of `_deep_collect_text_fields`: remove only
immediately adjacent duplicate strings. -/
def dedup_adjacent : List String → List String
  | [] => []
  | s :: t => s :: dedup_adjacent_aux s t

/-- Python's lexicographic comparison on code points, on character lists. -/
def charListLe : List Char → List Char → Bool
  | [], _ => true
  | _ :: _, [] => false
  | a :: as, b :: bs =>
    if a.toNat < b.toNat then true
    else if b.toNat < a.toNat then false
    else charListLe as bs

/-- Python's `s <= t` on strings. -/
def pyStrLe (a b : String) : Bool :=
  charListLe a.data b.data

/-! ## Decimal rendering of integers (Python `str(i)` / f-string interpolation) -/

/-- Big-endian decimal digits of `n`, with explicit fuel (the fuel `n + 1`
used by `natRepr` is always sufficient). -/
def natReprAux : Nat → Nat → List Char
  | 0, _ => []
  | f + 1, n =>
    if n < 10 then [Nat.digitChar n]
    else natReprAux f (n / 10) ++ [Nat.digitChar (n % 10)]

/-- Decimal rendering of a natural number. -/
def natRepr (n : Nat) : String := String.mk (natReprAux (n + 1) n)

/-- Python's `str(i)` for an `int`. -/
def intRepr (i : Int) : String :=
  if i < 0 then "-" ++ natRepr i.natAbs else natRepr i.natAbs

/-! ## The JSON data model -/

/-- JSON values as the scripts see them after `json.loads` / `r.json()`.
Numbers are modelled as integers: every `isinstance(x, int)` check in the
scripts accepts exactly these. -/
inductive Json where
  | null
  | bool (b : Bool)
  | num (n : Int)
  | str (s : String)
  | arr (elems : List Json)
  | obj (fields : List (String × Json))

/-- Python's `d.get(k)` on a dict (and `None`-like `none` on non-dicts,
which the scripts only reach on payload shapes outside every claim). -/
def Json.get (j : Json) (k : String) : Option Json :=
  match j with
  | .obj kvs => kvs.lookup k
  | _ => none

/-- Python truthiness of a JSON-decoded value. -/
def pyTruthy : Json → Bool
  | .null => false
  | .bool b => b
  | .num n => n != 0
  | .str s => s != ""
  | .arr [] => false
  | .arr (_ :: _) => true
  | .obj [] => false
  | .obj (_ :: _) => true

/-- Python's `str(v)` for JSON scalars (the only values the scripts ever
interpolate into file names; container rendering is never exercised by any
claim and is modelled as the empty string). -/
def pyStrOf : Json → String
  | .null => "None"
  | .bool true => "True"
  | .bool false => "False"
  | .num n => intRepr n
  | .str s => s
  | .arr _ => ""
  | .obj _ => ""

/-- Python's `str(v)` where `v` may be the absent result of `d.get(k)`
(f-strings render absent/`None` as `"None"`). -/
def pyStrOfOpt : Option Json → String
  | none => "None"
  | some v => pyStrOf v

/-- Python's `x or {}` applied to the result of `d.get(k)`. -/
def pyOrEmptyObj : Option Json → Json
  | none => .obj []
  | some v => if pyTruthy v then v else .obj []

/-- Induction on `Json` with membership hypotheses for the nested lists. -/
theorem json_induction (P : Json → Prop)
    (hnull : P .null) (hbool : ∀ b, P (.bool b)) (hnum : ∀ n, P (.num n))
    (hstr : ∀ s, P (.str s))
    (harr : ∀ xs, (∀ x ∈ xs, P x) → P (.arr xs))
    (hobj : ∀ kvs, (∀ kv ∈ kvs, P kv.2) → P (.obj kvs)) :
    ∀ j, P j
  | .null => hnull
  | .bool b => hbool b
  | .num n => hnum n
  | .str s => hstr s
  | .arr xs =>
    harr xs (fun x hx =>
      json_induction P hnull hbool hnum hstr harr hobj x)
  | .obj kvs =>
    hobj kvs (fun kv hkv =>
      json_induction P hnull hbool hnum hstr harr hobj kv.2)
termination_by j => sizeOf j
decreasing_by
  · have h1 := List.sizeOf_lt_of_mem hx
    simp only [Json.arr.sizeOf_spec]
    omega
  · have h1 := List.sizeOf_lt_of_mem hkv
    obtain ⟨k1, v1⟩ := kv
    simp only [Json.obj.sizeOf_spec, Prod.mk.sizeOf_spec] at *
    omega

/-! ## get_meta.py -/

namespace GetMeta

/-- `sanitize_slug` of get_meta.py: lowercase, strip, drop everything but
word characters, whitespace and dashes, turn whitespace runs into single
dashes, truncate, strip dashes, default `"item"`. -/
def sanitize_slug (s : String) (max_len : Nat) : String :=
  let s1 := pyLower (pyStrip s)
  let s2 := s1.data.filter (fun c => c.isAlphanum || c = '_' || isPySpace c || c = '-')
  let s3 := collapse_ws_runs '-' false s2
  let s4 := stripChars (fun c => c = '-') (s3.take max_len)
  if s4 = [] then "item" else String.mk s4

/-- `resp.get("data", [])`. -/
def resp_data (resp : Json) : Json :=
  (Json.get resp ("data")).getD (.arr [])

/-- `(resp.get("pagination") or {}).get("nextCursor")`, where a JSON `null`
decodes to Python `None` and therefore also stops the loop. -/
def next_cursor_of (resp : Json) : Option Json :=
  match Json.get (pyOrEmptyObj (Json.get resp ("pagination"))) ("nextCursor") with
  | some .null => none
  | some v => some v
  | none => none

/-- The record list an individual page contributes. -/
def page_items (resp : Json) : List Json :=
  match resp_data resp with
  | .arr items => items
  | _ => []

/-- The pagination loop of `list_transcript_documents_by_ticker`, with the
remote endpoint modelled as the list of responses it serves in request
order (the numeric cursor only selects the next response). Stops on an
empty or non-list `data` payload, or on a missing `nextCursor`. -/
def list_transcript_documents_by_ticker : List Json → List Json
  | [] => []
  | resp :: rest =>
    match resp_data resp with
    | .arr [] => []
    | .arr (x :: xs) =>
      match next_cursor_of resp with
      | none => x :: xs
      | some _ => (x :: xs) ++ list_transcript_documents_by_ticker rest
    | _ => []

/-- `event.get("title") or f"event_{item.get('eventId')}"` followed by
`str(...)`, as used for per-record meta file names. -/
def meta_record_title (item : Json) : String :=
  let event := pyOrEmptyObj (Json.get item ("event"))
  let fb := "event_" ++ pyStrOfOpt (Json.get item ("eventId"))
  match Json.get event ("title") with
  | some v => if pyTruthy v then pyStrOf v else fb
  | none => fb

/-- The per-record meta file name `<slug(title)>_<id>.json`; `none` when the
record's `id` is not an integer (such records are skipped). -/
def meta_json_filename (item : Json) : Option String :=
  match Json.get item ("id") with
  | some (.num doc_id) =>
    some (sanitize_slug (meta_record_title item) 80 ++ "_" ++ intRepr doc_id ++ ".json")
  | _ => none

/-- `write_meta_files`, modelled by its outputs: the per-record files
(name and content) and the content of `_index.json` (the full ordered
record list). -/
def write_meta_files (items : List Json) : List (String × Json) × List Json :=
  (items.filterMap (fun item =>
      match meta_json_filename item with
      | some name => some (name, item)
      | none => none),
   items)

end GetMeta

/-! ## meta_to_txt.py -/

namespace MetaToTxt

/-- `sanitize_filename` of meta_to_txt.py (max length 140, default
`"transcript"`). -/
def sanitize_filename (name : String) : String :=
  let n1 := pyStrip name
  let n2 := n1.data.filter (fun c =>
    !(c.toNat < 32 || c = '<' || c = '>' || c = ':' || c = '\"' ||
      c = '/' || c = '\\' || c = '|' || c = '?' || c = '*'))
  let n3 := collapse_ws_runs ' ' false n2
  let n4 := rstripChars isPySpace (n3.take 140)
  if n4 = [] then "transcript" else String.mk n4

/-- The per-element step of `_join_text_array`: the first of
`text`/`content`/`value` that is a non-blank string (stripped), or the
element itself if it is a non-blank string. -/
def join_elem_part (item : Json) : Option String :=
  match item with
  | .obj _ =>
    ["text", "content", "value"].findSome? (fun k =>
      match Json.get item k with
      | some (.str v) => if pyStrip v = "" then none else some (pyStrip v)
      | _ => none)
  | .str s => if pyStrip s = "" then none else some (pyStrip s)
  | _ => none

/-- `_join_text_array`: newline-join the per-element parts and strip;
`""` when the argument is absent or not a list. -/
def join_text_array (arrv : Option Json) : String :=
  match arrv with
  | some (.arr elems) => pyStrip (joinNL (elems.filterMap join_elem_part))
  | _ => ""

mutual
/-- The recursive walker `rec` of `_deep_collect_text_fields`: stop when
`out` already holds `m` chunks, else append this dict's own non-blank
`text` field and recurse into dict values, then list elements. -/
def deep_rec (m : Nat) (x : Json) (out : List String) : List String :=
  if out.length ≥ m then out
  else
    match x with
    | .obj kvs =>
      let out1 := match (Json.obj kvs).get ("text") with
        | some (.str v) => if pyStrip v = "" then out else out ++ [pyStrip v]
        | _ => out
      deep_rec_kvs m kvs out1
    | .arr xs => deep_rec_list m xs out
    | _ => out

/-- Fold `deep_rec` over the values of a dict, in key order. -/
def deep_rec_kvs (m : Nat) (kvs : List (String × Json)) (out : List String) : List String :=
  match kvs with
  | [] => out
  | (_, v) :: t => deep_rec_kvs m t (deep_rec m v out)

/-- Fold `deep_rec` over the elements of a list, in order. -/
def deep_rec_list (m : Nat) (xs : List Json) (out : List String) : List String :=
  match xs with
  | [] => out
  | v :: t => deep_rec_list m t (deep_rec m v out)
end

/-- `_deep_collect_text_fields`: the capped depth-first collection followed
by the adjacent-duplicate removal loop. The script calls it with the
default `max_chunks = 50000`. -/
def deep_collect_text_fields (raw : Json) (max_chunks : Nat) : List String :=
  dedup_adjacent (deep_rec max_chunks raw [])

/-- The first loop of `extract_text_from_raw_transcript`: the first of
`text`/`plainText`/`content`/`body` on `t` that is a non-blank string,
stripped. -/
def scalar_field_hit (t : Json) : Option String :=
  ["text", "plainText", "content", "body"].findSome? (fun k =>
    match Json.get t k with
    | some (.str v) => if pyStrip v = "" then none else some (pyStrip v)
    | _ => none)

/-- The array-field loops of `extract_text_from_raw_transcript`: the first
non-empty `_join_text_array` over the ordered array-field names. -/
def array_fields_hit (t : Json) : Option String :=
  ["segments", "entries", "paragraphs", "turns", "speakerTurns", "items"].findSome?
    (fun k =>
      let joined := join_text_array (Json.get t k)
      if joined = "" then none else some joined)

/-- The `isinstance(raw, dict)` block of `extract_text_from_raw_transcript`:
scalar fields then array fields under `transcript`, then the top-level
`text`, then the array fields at the root. -/
def dict_stage (raw : Json) : Option String :=
  match raw with
  | .obj _ =>
    ((match Json.get raw ("transcript") with
      | some (.obj tkvs) => (scalar_field_hit (.obj tkvs)) <|> (array_fields_hit (.obj tkvs))
      | _ => none) <|>
      (match Json.get raw ("text") with
       | some (.str v) => if pyStrip v = "" then none else some (pyStrip v)
       | _ => none)) <|> array_fields_hit raw
  | _ => none

/-- The final stage of `extract_text_from_raw_transcript`: deep-collect
`text` fields (cap 50000), join with newlines and strip; `none` when no
chunk was found. -/
def deep_stage (raw : Json) : Option String :=
  match deep_collect_text_fields raw 50000 with
  | [] => none
  | chunks => some (pyStrip (joinNL chunks))

/-- `extract_text_from_raw_transcript`; `none` models the final
`raise RuntimeError`. -/
def extract_text_from_raw_transcript (raw : Json) : Option String :=
  dict_stage raw <|> deep_stage raw

/-- The output file name of `meta_obj_to_txt`:
`<sanitize_filename(title)><_id>.txt`. -/
def transcript_txt_filename (meta_obj : Json) : String :=
  let event := pyOrEmptyObj (Json.get meta_obj ("event"))
  let fb := "transcript_" ++ pyStrOfOpt (Json.get meta_obj ("id"))
  let title := match Json.get event ("title") with
    | some v => if pyTruthy v then pyStrOf v else fb
    | none => fb
  let safe_title := sanitize_filename title
  let suffix := match Json.get meta_obj ("id") with
    | some (.num doc_id) => "_" ++ intRepr doc_id
    | _ => ""
  safe_title ++ suffix ++ ".txt"

end MetaToTxt

/-! ## slides_to_txt.py -/

namespace SlidesToTxt

/-- `sanitize_filename` of slides_to_txt.py (max length 160, default
`"slides"`). -/
def sanitize_filename (name : String) : String :=
  let n1 := pyStrip name
  let n2 := n1.data.filter (fun c =>
    !(c.toNat < 32 || c = '<' || c = '>' || c = ':' || c = '\"' ||
      c = '/' || c = '\\' || c = '|' || c = '?' || c = '*'))
  let n3 := collapse_ws_runs ' ' false n2
  let n4 := rstripChars isPySpace (n3.take 160)
  if n4 = [] then "slides" else String.mk n4

/-- `_normalize_one_line`: `\r` to `\n`, whitespace runs to single spaces,
strip. -/
def normalize_one_line (txt : String) : String :=
  pyStrip (String.mk (collapse_ws_runs ' ' false
    (txt.data.map (fun c => if c = '\x0d' then '\n' else c))))

/-- `non_empty` of `_pdf_bytes_to_page_lines`: pages whose normalized line
is non-empty. -/
def non_empty_pages (lines : List String) : Nat :=
  (lines.filter (fun l => l ≠ "")).length

/-- `total_chars` of `_pdf_bytes_to_page_lines`: summed length of the
non-empty lines. -/
def total_chars (lines : List String) : Nat :=
  ((lines.filter (fun l => l ≠ "")).map String.length).sum

/-- `coverage` of `_pdf_bytes_to_page_lines` (`0.0` for an empty PDF),
with the Python float modelled in `ℚ`. -/
def coverage (lines : List String) : ℚ :=
  if lines.length = 0 then 0 else (non_empty_pages lines : ℚ) / (lines.length : ℚ)

/-- The distinct `RuntimeError`s of `slide_deck_obj_to_txt`. -/
inductive SlideError where
  | missing_fileurl_and_id
  | unresolved_fileurl
  | zero_pages
  | too_sparse
deriving DecidableEq

/-- The `fileUrl` resolution prefix of `slide_deck_obj_to_txt`: use a
non-empty string `fileUrl` as is; otherwise require an integer `id`, fetch
the deck detail, replace the record with `detail.get("data") or {}` and
re-read `fileUrl`. -/
def resolve_deck_file_url (deck_obj : Json) (fetchDetail : Int → Json) :
    Except SlideError (Json × String) :=
  let file_url0 : Option String :=
    match Json.get deck_obj ("fileUrl") with
    | some (.str u) => if u = "" then none else some u
    | _ => none
  match file_url0 with
  | some u => .ok (deck_obj, u)
  | none =>
    match Json.get deck_obj ("id") with
    | some (.num deck_id) =>
      let detail := fetchDetail deck_id
      let deck2 := pyOrEmptyObj (Json.get detail ("data"))
      match Json.get deck2 ("fileUrl") with
      | some (.str u) => if u = "" then .error .unresolved_fileurl else .ok (deck2, u)
      | _ => .error .unresolved_fileurl
    | _ => .error .missing_fileurl_and_id

/-- The output file name of `slide_deck_obj_to_txt`:
`<sanitize_filename(title)>_event_<eventId>_deck_<deckId>.txt`. -/
def slide_txt_filename (deck_obj : Json) : String :=
  let event := pyOrEmptyObj (Json.get deck_obj ("event"))
  let fb := "event_" ++ pyStrOfOpt (Json.get deck_obj ("eventId"))
  let title := match Json.get event ("title") with
    | some v => if pyTruthy v then pyStrOf v else fb
    | none => fb
  sanitize_filename title ++ "_event_" ++ pyStrOfOpt (Json.get deck_obj ("eventId")) ++
    "_deck_" ++ pyStrOfOpt (Json.get deck_obj ("id")) ++ ".txt"

/-- `slide_deck_obj_to_txt` with the remote endpoints as parameters:
`fetchDetail` is `GET /documents/slides/{id}`, `pdfPages url` the raw
per-page texts pypdf extracts from the PDF at `url`. Returns the written
file's name and content, or the error raised. -/
def slide_deck_obj_to_txt (deck_obj : Json) (fetchDetail : Int → Json)
    (pdfPages : String → List String) (min_coverage : ℚ) (min_total_chars : Nat) :
    Except SlideError (String × String) :=
  match resolve_deck_file_url deck_obj fetchDetail with
  | .error e => .error e
  | .ok (dobj, file_url) =>
    let out_name := slide_txt_filename dobj
    let lines := (pdfPages file_url).map normalize_one_line
    if lines.length = 0 then .error .zero_pages
    else if coverage lines < min_coverage ∨ total_chars lines < min_total_chars then
      .error .too_sparse
    else .ok (out_name, joinNL lines ++ "\n")

end SlidesToTxt

/-! ## manager.py -/

namespace Manager

/-- The sort key of `choose_best`: `x.get(key) or ""` (for the
string-or-absent `updatedAt` values the claims quantify over). -/
def record_key (key : String) (x : Json) : String :=
  match Json.get x key with
  | some (.str s) => s
  | _ => ""

/-- Insert into a descending-by-key list, before the first element whose
key is `≤` the new one: this is where a stable descending sort places an
earlier-input element relative to later ties. -/
def sort_insert (k : Json → String) (x : Json) : List Json → List Json
  | [] => [x]
  | y :: t => if pyStrLe (k y) (k x) then x :: y :: t else y :: sort_insert k x t

/-- Python's stable `sorted(items, key=k, reverse=True)`, modelled as a
stable insertion sort. -/
def sorted_by_key_desc (k : Json → String) (l : List Json) : List Json :=
  l.foldr (sort_insert k) []

/-- `choose_best`: head of the stable descending sort, `{}` when empty. -/
def choose_best (items : List Json) (key : String) : Json :=
  (sorted_by_key_desc (record_key key) items).headD (.obj [])

/-- The run state of `main`'s per-ticker loop: text files on disk plus the
processed/skipped counters. -/
structure RunState where
  files : List String
  processed : Nat
  skipped : Nat

/-- `if path and path.exists(): path.unlink()` with the deletion succeeding
(the script additionally swallows deletion errors, which a functional
filesystem model cannot exhibit). -/
def unlink_if_exists (files : List String) (p : Option String) : List String :=
  match p with
  | none => files
  | some path => if path ∈ files then files.erase path else files

/-- The `try`/`except` body of `main` for one event: the transcript
extraction result `t_res` and slide extraction result `s_res` are `.ok
path` when the extraction wrote a file, `.error ()` when it raised. -/
def process_event (st : RunState) (t_res s_res : Except Unit String) : RunState :=
  match t_res with
  | .error _ =>
    let files1 := unlink_if_exists st.files none
    let files2 := unlink_if_exists files1 none
    { files := files2, processed := st.processed, skipped := st.skipped + 1 }
  | .ok txt_path =>
    let files1 := txt_path :: st.files
    match s_res with
    | .ok slides_path =>
      { files := slides_path :: files1, processed := st.processed + 1,
        skipped := st.skipped }
    | .error _ =>
      let files2 := unlink_if_exists files1 (some txt_path)
      let files3 := unlink_if_exists files2 none
      { files := files3, processed := st.processed, skipped := st.skipped + 1 }

/-- The per-ticker event loop of `main`. -/
def run_events (st : RunState) : List (Except Unit String × Except Unit String) → RunState
  | [] => st
  | (t, s) :: rest => run_events (process_event st t s) rest

end Manager

/-! ## Spec-worded definitions (refinement targets)

These follow the sentences of the specification rather than the code and
exist only to be compared with the definitions above. -/

/-- Modelled from the spec, step 1 of the transcript fallback chain: a
`transcript` object field among `text`, `plainText`, `content`, `body`
that is a non-blank string; first match wins. -/
def spec_step1 (p : Json) : Option String :=
  match Json.get p ("transcript") with
  | some (.obj tkvs) =>
    ["text", "plainText", "content", "body"].findSome? (fun k =>
      match Json.get (.obj tkvs) k with
      | some (.str v) => if pyStrip v = "" then none else some (pyStrip v)
      | _ => none)
  | _ => none

/-- Modelled from the spec: an element's first-present text-bearing field
(`text`/`content`/`value`, non-blank), or the element itself when it is a
non-blank string. -/
def spec_elem_text (e : Json) : Option String :=
  match e with
  | .obj _ =>
    ["text", "content", "value"].findSome? (fun k =>
      match Json.get e k with
      | some (.str v) => if pyStrip v = "" then none else some (pyStrip v)
      | _ => none)
  | .str s => if pyStrip s = "" then none else some (pyStrip s)
  | _ => none

/-- Modelled from the spec: the newline-separated join of the element
texts of an array value, stripped; empty for a non-array. -/
def spec_join_array (v : Option Json) : String :=
  match v with
  | some (.arr elems) => pyStrip (joinNL (elems.filterMap spec_elem_text))
  | _ => ""

/-- Modelled from the spec, step 2: first non-empty join over the ordered
array-field names under `transcript`. -/
def spec_step2 (p : Json) : Option String :=
  match Json.get p ("transcript") with
  | some (.obj tkvs) =>
    ["segments", "entries", "paragraphs", "turns", "speakerTurns", "items"].findSome?
      (fun k =>
        let j := spec_join_array (Json.get (.obj tkvs) k)
        if j = "" then none else some j)
  | _ => none

/-- Modelled from the spec, step 3: a non-blank top-level `text` string. -/
def spec_step3 (p : Json) : Option String :=
  match Json.get p ("text") with
  | some (.str v) => if pyStrip v = "" then none else some (pyStrip v)
  | _ => none

/-- Modelled from the spec, step 4: step 2's array-field search on the
payload root. -/
def spec_step4 (p : Json) : Option String :=
  ["segments", "entries", "paragraphs", "turns", "speakerTurns", "items"].findSome?
    (fun k =>
      let j := spec_join_array (Json.get p k)
      if j = "" then none else some j)

mutual
/-- Modelled from the spec, step 5's walk: collect every non-blank string
bound to a key named `text`, depth-first, dict values before list
elements, with no cap. -/
def spec_collect_texts : Json → List String
  | .obj kvs =>
    (match (Json.obj kvs).get ("text") with
     | some (.str v) => if pyStrip v = "" then [] else [pyStrip v]
     | _ => []) ++ spec_collect_kvs kvs
  | .arr xs => spec_collect_list xs
  | _ => []

/-- Depth-first collection over dict values, in key order. -/
def spec_collect_kvs : List (String × Json) → List String
  | [] => []
  | (_, v) :: t => spec_collect_texts v ++ spec_collect_kvs t

/-- Depth-first collection over list elements, in order. -/
def spec_collect_list : List Json → List String
  | [] => []
  | v :: t => spec_collect_texts v ++ spec_collect_list t
end

/-- Modelled from the spec, step 5: deduplicate only immediately adjacent
repeats of the collected strings and join with newlines. -/
def spec_step5 (p : Json) : Option String :=
  match dedup_adjacent (spec_collect_texts p) with
  | [] => none
  | chunks => some (pyStrip (joinNL chunks))

/-! ## C3: pagination termination -/

/-- A page that keeps the loop going: non-empty list `data` and a present,
non-null `nextCursor`. -/
def page_continues (r : Json) : Bool :=
  match GetMeta.resp_data r with
  | .arr (_ :: _) =>
    match GetMeta.next_cursor_of r with
    | some _ => true
    | none => false
  | _ => false

/-- A page whose `data` payload stops the loop before contributing records:
empty list or not a list. -/
def page_stops_on_data (r : Json) : Bool :=
  match GetMeta.resp_data r with
  | .arr (_ :: _) => false
  | _ => true

/-- A final page: non-empty list `data` but no `nextCursor`. -/
def page_is_final (r : Json) : Bool :=
  match GetMeta.resp_data r with
  | .arr (_ :: _) =>
    match GetMeta.next_cursor_of r with
    | some _ => false
    | none => true
  | _ => false

theorem fetch_cons_continues (g : Json) (rest : List Json)
    (hg : page_continues g = true) :
    GetMeta.list_transcript_documents_by_ticker (g :: rest) =
      GetMeta.page_items g ++ GetMeta.list_transcript_documents_by_ticker rest := by
  unfold page_continues at hg
  cases h1 : GetMeta.resp_data g with
  | arr items =>
    cases items with
    | nil => rw [h1] at hg; simp at hg
    | cons x xs =>
      rw [h1] at hg
      cases h2 : GetMeta.next_cursor_of g with
      | none => rw [h2] at hg; simp at hg
      | some c =>
        simp only [GetMeta.list_transcript_documents_by_ticker, GetMeta.page_items,
          h1, h2, List.cons_append]
  | null => rw [h1] at hg; simp at hg
  | bool b => rw [h1] at hg; simp at hg
  | num n => rw [h1] at hg; simp at hg
  | str s => rw [h1] at hg; simp at hg
  | obj kvs => rw [h1] at hg; simp at hg

theorem fetch_cons_stops (b : Json) (rest : List Json)
    (hb : page_stops_on_data b = true) :
    GetMeta.list_transcript_documents_by_ticker (b :: rest) = [] := by
  unfold page_stops_on_data at hb
  cases h1 : GetMeta.resp_data b with
  | arr items =>
    cases items with
    | nil => simp [GetMeta.list_transcript_documents_by_ticker, h1]
    | cons x xs => rw [h1] at hb; simp at hb
  | null => simp [GetMeta.list_transcript_documents_by_ticker, h1]
  | bool b2 => simp [GetMeta.list_transcript_documents_by_ticker, h1]
  | num n => simp [GetMeta.list_transcript_documents_by_ticker, h1]
  | str s => simp [GetMeta.list_transcript_documents_by_ticker, h1]
  | obj kvs => simp [GetMeta.list_transcript_documents_by_ticker, h1]

theorem fetch_cons_final (l : Json) (rest : List Json)
    (hl : page_is_final l = true) :
    GetMeta.list_transcript_documents_by_ticker (l :: rest) =
      GetMeta.page_items l := by
  unfold page_is_final at hl
  cases h1 : GetMeta.resp_data l with
  | arr items =>
    cases items with
    | nil => rw [h1] at hl; simp at hl
    | cons x xs =>
      rw [h1] at hl
      cases h2 : GetMeta.next_cursor_of l with
      | none =>
        simp only [GetMeta.list_transcript_documents_by_ticker, GetMeta.page_items,
          h1, h2]
      | some c => rw [h2] at hl; simp at hl
  | null => rw [h1] at hl; simp at hl
  | bool b => rw [h1] at hl; simp at hl
  | num n => rw [h1] at hl; simp at hl
  | str s => rw [h1] at hl; simp at hl
  | obj kvs => rw [h1] at hl; simp at hl

theorem fetch_over_good_pages (good : List Json) :
    ∀ tail : List Json, (∀ r ∈ good, page_continues r = true) →
      GetMeta.list_transcript_documents_by_ticker (good ++ tail) =
        (good.map GetMeta.page_items).flatten ++
          GetMeta.list_transcript_documents_by_ticker tail := by
  induction good with
  | nil => intro tail _; simp
  | cons g gs ih =>
    intro tail hgood
    have hg : page_continues g = true := hgood g (by simp)
    have hgs : ∀ r ∈ gs, page_continues r = true := fun r hr => hgood r (by simp [hr])
    calc GetMeta.list_transcript_documents_by_ticker ((g :: gs) ++ tail)
        = GetMeta.page_items g ++
            GetMeta.list_transcript_documents_by_ticker (gs ++ tail) :=
          fetch_cons_continues g (gs ++ tail) hg
      _ = GetMeta.page_items g ++
            ((gs.map GetMeta.page_items).flatten ++
              GetMeta.list_transcript_documents_by_ticker tail) := by
          rw [ih tail hgs]
      _ = ((g :: gs).map GetMeta.page_items).flatten ++
            GetMeta.list_transcript_documents_by_ticker tail := by
          simp

/-- A record as the mock endpoint of the pagination examples serves it. -/
def ex_record : Json := .obj [("id", .num 1)]

/-- A mock page response with `n` records and an optional next cursor. -/
def ex_page (n : Nat) (cur : Option Int) : Json :=
  .obj [("data", .arr (List.replicate n ex_record)),
        ("pagination", match cur with
          | some c => .obj [("nextCursor", .num c)]
          | none => .obj [])]

/-- Pages of sizes 200, 200, 150, 0: the loop stops at the empty page. -/
def ex_pages_550 : List Json :=
  [ex_page 200 (some 200), ex_page 200 (some 400), ex_page 150 (some 550),
   ex_page 0 none]

/-- A single final page of 150 records with no `nextCursor`. -/
def ex_pages_150 : List Json := [ex_page 150 none]

set_option maxRecDepth 100000 in
/-- C3: the pagination loop concatenates the pages' data arrays in order
and stops exactly when a page's data payload is an empty or non-list value
or when the pagination block provides no next cursor; pages of sizes
[200, 200, 150, 0] yield exactly 550 records, and a final 150-record page
without `nextCursor` yields 150. -/
theorem C3_pagination_termination :
    (∀ good bad rest, (∀ r ∈ good, page_continues r = true) →
        page_stops_on_data bad = true →
        GetMeta.list_transcript_documents_by_ticker (good ++ bad :: rest) =
          (good.map GetMeta.page_items).flatten) ∧
    (∀ good fin rest, (∀ r ∈ good, page_continues r = true) →
        page_is_final fin = true →
        GetMeta.list_transcript_documents_by_ticker (good ++ fin :: rest) =
          (good.map GetMeta.page_items).flatten ++ GetMeta.page_items fin) ∧
    (GetMeta.list_transcript_documents_by_ticker ex_pages_550).length = 550 ∧
    (GetMeta.list_transcript_documents_by_ticker ex_pages_150).length = 150 := by
  refine ⟨?_, ?_, ?_, ?_⟩
  · intro good bad rest hgood hbad
    rw [fetch_over_good_pages good (bad :: rest) hgood, fetch_cons_stops bad rest hbad]
    simp
  · intro good fin rest hgood hfin
    rw [fetch_over_good_pages good (fin :: rest) hgood, fetch_cons_final fin rest hfin]
  · decide
  · decide

/-- C3 witness: the general clauses instantiated at concrete one-page runs. -/
theorem C3_pagination_termination_witness :
    ((∀ r ∈ [ex_page 2 (some 2)], page_continues r = true) ∧
      page_stops_on_data (ex_page 0 none) = true ∧
      GetMeta.list_transcript_documents_by_ticker
          ([ex_page 2 (some 2)] ++ ex_page 0 none :: []) =
        ([ex_page 2 (some 2)].map GetMeta.page_items).flatten) ∧
    (page_is_final (ex_page 3 none) = true ∧
      GetMeta.list_transcript_documents_by_ticker ([] ++ ex_page 3 none :: []) =
        (([] : List Json).map GetMeta.page_items).flatten ++
          GetMeta.page_items (ex_page 3 none)) :=
  ⟨⟨by decide, by decide,
    C3_pagination_termination.1 [ex_page 2 (some 2)] (ex_page 0 none) []
      (by decide) (by decide)⟩,
   ⟨by decide,
    C3_pagination_termination.2.1 [] (ex_page 3 none) [] (by simp) (by decide)⟩⟩

/-! ## C4: best-record selection -/

theorem charListLe_refl : ∀ l : List Char, charListLe l l = true
  | [] => rfl
  | c :: t => by simp [charListLe, charListLe_refl t]

theorem charListLe_total : ∀ a b : List Char,
    charListLe a b = false → charListLe b a = true
  | [], b => by simp [charListLe]
  | a :: as, [] => fun _ => rfl
  | a :: as, b :: bs => by
    simp only [charListLe]
    intro h
    by_cases h1 : a.toNat < b.toNat
    · simp [h1] at h
    · by_cases h2 : b.toNat < a.toNat
      · simp [h2]
      · have h3 : ¬ b.toNat < a.toNat := h2
        simp [h1, h2] at h
        simp [h1, h2, h3, charListLe_total as bs h]

theorem charListLe_trans : ∀ a b c : List Char,
    charListLe a b = true → charListLe b c = true → charListLe a c = true
  | [], b, c => by simp [charListLe]
  | a :: as, [], c => by intro h _; simp [charListLe] at h
  | a :: as, b :: bs, [] => by intro _ h; simp [charListLe] at h
  | a :: as, b :: bs, c :: cs => by
    simp only [charListLe]
    intro h1 h2
    by_cases hab1 : a.toNat < b.toNat
    · by_cases hbc1 : b.toNat < c.toNat
      · have : a.toNat < c.toNat := by omega
        simp [this]
      · by_cases hbc2 : c.toNat < b.toNat
        · simp [hbc1, hbc2] at h2
        · have : a.toNat < c.toNat := by omega
          simp [this]
    · by_cases hab2 : b.toNat < a.toNat
      · simp [hab1, hab2] at h1
      · by_cases hbc1 : b.toNat < c.toNat
        · have : a.toNat < c.toNat := by omega
          simp [this]
        · by_cases hbc2 : c.toNat < b.toNat
          · simp [hbc1, hbc2] at h2
          · have hac1 : ¬ a.toNat < c.toNat := by omega
            have hac2 : ¬ c.toNat < a.toNat := by omega
            simp [hab1, hab2] at h1
            simp [hbc1, hbc2] at h2
            simp [hac1, hac2]
            exact charListLe_trans as bs cs h1 h2

theorem pyStrLe_refl (s : String) : pyStrLe s s = true :=
  charListLe_refl s.data

theorem pyStrLe_total (a b : String) (h : pyStrLe a b = false) :
    pyStrLe b a = true :=
  charListLe_total a.data b.data h

theorem pyStrLe_trans (a b c : String) (h1 : pyStrLe a b = true)
    (h2 : pyStrLe b c = true) : pyStrLe a c = true :=
  charListLe_trans a.data b.data c.data h1 h2

/-- The empty string (the key of records with missing or empty `updatedAt`)
sorts below every key. -/
theorem pyStrLe_empty_least (s : String) : pyStrLe ("") s = true := by
  simp [pyStrLe, charListLe]

theorem sort_insert_ne_nil (k : Json → String) (x : Json) :
    ∀ l : List Json, Manager.sort_insert k x l ≠ []
  | [] => by simp [Manager.sort_insert]
  | y :: t => by
    simp only [Manager.sort_insert]
    by_cases h : pyStrLe (k y) (k x) = true <;> simp [h]

theorem sorted_by_key_desc_ne_nil (k : Json → String) (a : Json) (t : List Json) :
    Manager.sorted_by_key_desc k (a :: t) ≠ [] := by
  simp only [Manager.sorted_by_key_desc, List.foldr_cons]
  exact sort_insert_ne_nil k a (t.foldr (Manager.sort_insert k) [])

/-- Head of the stable descending insertion sort: the first element of the
input attaining the maximal key. -/
theorem sorted_head_first_max (k : Json → String) :
    ∀ items : List Json, items ≠ [] →
      ∃ i, ∃ hi : i < items.length,
        (Manager.sorted_by_key_desc k items).headD (.obj []) = items.get ⟨i, hi⟩ ∧
        (∀ j, (hj : j < items.length) →
          pyStrLe (k (items.get ⟨j, hj⟩)) (k (items.get ⟨i, hi⟩)) = true) ∧
        (∀ j, (hj : j < i) →
          pyStrLe (k (items.get ⟨i, hi⟩)) (k (items.get ⟨j, Nat.lt_trans hj hi⟩)) = false) := by
  intro items
  induction items with
  | nil => intro h; exact absurd rfl h
  | cons a t ih =>
    intro _
    cases t with
    | nil =>
      refine ⟨0, by simp, ?_, ?_, ?_⟩
      · simp [Manager.sorted_by_key_desc, Manager.sort_insert]
      · intro j hj
        have hj0 : j = 0 := by simp at hj; omega
        subst hj0
        exact pyStrLe_refl _
      · intro j hj; omega
    | cons b t2 =>
      obtain ⟨i2, hi2, hhead, hmax, hfirst⟩ := ih (by simp)
      obtain ⟨h, s, hs⟩ :
          ∃ h s, Manager.sorted_by_key_desc k (b :: t2) = h :: s := by
        cases hs : Manager.sorted_by_key_desc k (b :: t2) with
        | nil => exact absurd hs (sorted_by_key_desc_ne_nil k b t2)
        | cons h s => exact ⟨h, s, rfl⟩
      have hhead2 : h = (b :: t2).get ⟨i2, hi2⟩ := by
        rw [hs] at hhead; simpa using hhead
      have hsorted_cons : Manager.sorted_by_key_desc k (a :: b :: t2) =
          Manager.sort_insert k a (h :: s) := by
        simp only [Manager.sorted_by_key_desc, List.foldr_cons]
        rw [← List.foldr_cons (f := Manager.sort_insert k)]
        show Manager.sort_insert k a (Manager.sorted_by_key_desc k (b :: t2)) = _
        rw [hs]
      by_cases hcmp : pyStrLe (k h) (k a) = true
      · refine ⟨0, by simp, ?_, ?_, ?_⟩
        · rw [hsorted_cons]
          simp [Manager.sort_insert, hcmp]
        · intro j hj
          cases j with
          | zero => exact pyStrLe_refl _
          | succ j2 =>
            have hj2 : j2 < (b :: t2).length := by simpa using hj
            have step1 := hmax j2 hj2
            rw [← hhead2] at step1
            have step2 : (a :: b :: t2).get ⟨j2 + 1, hj⟩ = (b :: t2).get ⟨j2, hj2⟩ := rfl
            rw [step2]
            exact pyStrLe_trans _ _ _ step1 hcmp
        · intro j hj; omega
      · have hcmp2 : pyStrLe (k h) (k a) = false := by
          cases hval : pyStrLe (k h) (k a)
          · rfl
          · exact absurd hval hcmp
        refine ⟨i2 + 1, by simpa using hi2, ?_, ?_, ?_⟩
        · rw [hsorted_cons]
          simp only [Manager.sort_insert, hcmp2]
          simp only [Bool.false_eq_true, if_false, List.headD_cons]
          exact hhead2
        · intro j hj
          cases j with
          | zero =>
            show pyStrLe (k a) (k ((b :: t2).get ⟨i2, hi2⟩)) = true
            rw [← hhead2]
            exact pyStrLe_total _ _ hcmp2
          | succ j2 =>
            have hj2 : j2 < (b :: t2).length := by simpa using hj
            exact hmax j2 hj2
        · intro j hj
          cases j with
          | zero =>
            show pyStrLe (k ((b :: t2).get ⟨i2, hi2⟩)) (k a) = false
            rw [← hhead2]
            exact hcmp2
          | succ j2 =>
            have hj2 : j2 < i2 := by omega
            exact hfirst j2 hj2

/-- `updatedAt` is a string or absent (the shapes the claim quantifies
over). -/
def upd_ok (x : Json) : Bool :=
  match Json.get x ("updatedAt") with
  | none => true
  | some (.str _) => true
  | some _ => false

/-- Example record with `updatedAt` `"2024-01-01"`. -/
def ex_rec_jan : Json := .obj [("id", .num 1), ("updatedAt", .str ("2024-01-01"))]

/-- Example record with empty `updatedAt`. -/
def ex_rec_empty : Json := .obj [("id", .num 2), ("updatedAt", .str (""))]

/-- Example record with `updatedAt` `"2024-03-01"`. -/
def ex_rec_march : Json := .obj [("id", .num 3), ("updatedAt", .str ("2024-03-01"))]

/-- The example list of the claim. -/
def ex_updated : List Json := [ex_rec_jan, ex_rec_empty, ex_rec_march]

/-- Two records that tie with empty `updatedAt`. -/
def ex_tie_a : Json := .obj [("id", .num 7), ("updatedAt", .str (""))]

/-- Second of the two tying records. -/
def ex_tie_b : Json := .obj [("id", .num 8)]

/-- C4: `choose_best` returns the record with the lexicographically
greatest `updatedAt`, where missing or empty values key as `""` and hence
sort last, and the first record in input order wins ties; on the example
values `["2024-01-01", "", "2024-03-01"]` it picks the `"2024-03-01"`
record, and on an all-empty list the first record. -/
theorem C4_choose_best :
    (∀ items : List Json, items ≠ [] → (∀ x ∈ items, upd_ok x = true) →
      ∃ i, ∃ hi : i < items.length,
        Manager.choose_best items ("updatedAt") = items.get ⟨i, hi⟩ ∧
        (∀ j, (hj : j < items.length) →
          pyStrLe (Manager.record_key ("updatedAt") (items.get ⟨j, hj⟩))
            (Manager.record_key ("updatedAt") (items.get ⟨i, hi⟩)) = true) ∧
        (∀ j, (hj : j < i) →
          pyStrLe (Manager.record_key ("updatedAt") (items.get ⟨i, hi⟩))
            (Manager.record_key ("updatedAt") (items.get ⟨j, Nat.lt_trans hj hi⟩)) = false)) ∧
    (∀ x : Json, Json.get x ("updatedAt") = none →
      Manager.record_key ("updatedAt") x = "") ∧
    (∀ x : Json, Json.get x ("updatedAt") = some (.str ("")) →
      Manager.record_key ("updatedAt") x = "") ∧
    (∀ s : String, pyStrLe ("") s = true) ∧
    Manager.choose_best ex_updated ("updatedAt") = ex_rec_march ∧
    Manager.choose_best [ex_tie_a, ex_tie_b] ("updatedAt") = ex_tie_a := by
  refine ⟨?_, ?_, ?_, pyStrLe_empty_least, rfl, rfl⟩
  · intro items hne _
    exact sorted_head_first_max (Manager.record_key ("updatedAt")) items hne
  · intro x hx; simp [Manager.record_key, hx]
  · intro x hx; simp [Manager.record_key, hx]

/-- C4 witness: the general clause instantiated at the example list. -/
theorem C4_choose_best_witness :
    (ex_updated ≠ [] ∧ (∀ x ∈ ex_updated, upd_ok x = true)) ∧
    (∃ i, ∃ hi : i < ex_updated.length,
      Manager.choose_best ex_updated ("updatedAt") = ex_updated.get ⟨i, hi⟩ ∧
      (∀ j, (hj : j < ex_updated.length) →
        pyStrLe (Manager.record_key ("updatedAt") (ex_updated.get ⟨j, hj⟩))
          (Manager.record_key ("updatedAt") (ex_updated.get ⟨i, hi⟩)) = true) ∧
      (∀ j, (hj : j < i) →
        pyStrLe (Manager.record_key ("updatedAt") (ex_updated.get ⟨i, hi⟩))
          (Manager.record_key ("updatedAt") (ex_updated.get ⟨j, Nat.lt_trans hj hi⟩)) = false)) :=
  ⟨⟨by simp [ex_updated], by decide⟩,
   C4_choose_best.1 ex_updated (by simp [ex_updated]) (by decide)⟩

/-! ## C6: index versus per-record files -/

/-- A fetch in which every record has an integer `id`: the per-record files
then hold exactly the index's records, so the index is not a strict
superset. -/
def ex_all_int_items : List Json := [.obj [("id", .num 1)]]

/-- A fetch with one integer-id record and one record whose `id` is a
string (the latter is skipped by the per-record fan-out). -/
def ex_mixed_items : List Json :=
  [.obj [("id", .num 1)], .obj [("id", .str ("x"))]]

/-- C6 counterexample: on a fetch whose records all carry integer ids the
index content equals the per-record file contents, so the index is not a
strict superset of the per-record files. -/
theorem C6_strict_superset_counterexample :
    ¬ (∃ x ∈ (GetMeta.write_meta_files ex_all_int_items).2,
        x ∉ ((GetMeta.write_meta_files ex_all_int_items).1.map Prod.snd)) := by
  rintro ⟨x, hx, hnot⟩
  apply hnot
  have heq : ((GetMeta.write_meta_files ex_all_int_items).1.map Prod.snd) =
      (GetMeta.write_meta_files ex_all_int_items).2 := rfl
  rw [heq]
  exact hx

/-- C6 (amended): every record written to a per-record file appears in the
index list, and the index strictly exceeds the per-record contents exactly
when some record's `id` is not an integer. -/
theorem C6_index_superset :
    (∀ items : List Json, ∀ nc ∈ (GetMeta.write_meta_files items).1,
        nc.2 ∈ (GetMeta.write_meta_files items).2) ∧
    (∀ items : List Json,
        (∃ x ∈ (GetMeta.write_meta_files items).2,
            x ∉ ((GetMeta.write_meta_files items).1.map Prod.snd)) ↔
          ∃ x ∈ items, GetMeta.meta_json_filename x = none) := by
  constructor
  · intro items nc hnc
    simp only [GetMeta.write_meta_files, List.mem_filterMap] at hnc
    obtain ⟨a, ha, hfa⟩ := hnc
    cases hname : GetMeta.meta_json_filename a with
    | none => rw [hname] at hfa; simp at hfa
    | some name =>
      rw [hname] at hfa
      simp only [Option.some.injEq] at hfa
      have : nc.2 = a := by rw [← hfa]
      rw [this]
      exact ha
  · intro items
    constructor
    · rintro ⟨x, hx, hnot⟩
      refine ⟨x, hx, ?_⟩
      cases hname : GetMeta.meta_json_filename x with
      | none => rfl
      | some name =>
        exfalso
        apply hnot
        simp only [GetMeta.write_meta_files, List.mem_map, List.mem_filterMap]
        exact ⟨(name, x), ⟨x, hx, by rw [hname]⟩, rfl⟩
    · rintro ⟨x, hx, hname⟩
      refine ⟨x, hx, ?_⟩
      intro hmem
      simp only [GetMeta.write_meta_files, List.mem_map, List.mem_filterMap] at hmem
      obtain ⟨nc, ⟨a, ha, hfa⟩, hsnd⟩ := hmem
      cases hna : GetMeta.meta_json_filename a with
      | none => rw [hna] at hfa; simp at hfa
      | some name2 =>
        rw [hna] at hfa
        simp only [Option.some.injEq] at hfa
        have hax : a = x := by
          have : nc.2 = a := by rw [← hfa]
          rw [← hsnd, this]
        rw [hax] at hna
        rw [hna] at hname
        simp at hname

/-- C6 witness: the amended clauses instantiated at a mixed-id fetch. -/
theorem C6_index_superset_witness :
    (("event_none_1.json", Json.obj [("id", Json.num 1)]) ∈
        (GetMeta.write_meta_files ex_mixed_items).1 ∧
      (Json.obj [("id", Json.num 1)]) ∈ (GetMeta.write_meta_files ex_mixed_items).2) ∧
    ((∃ x ∈ (GetMeta.write_meta_files ex_mixed_items).2,
        x ∉ ((GetMeta.write_meta_files ex_mixed_items).1.map Prod.snd)) ↔
      ∃ x ∈ ex_mixed_items, GetMeta.meta_json_filename x = none) :=
  ⟨⟨List.mem_cons_self _ _,
    C6_index_superset.1 ex_mixed_items ("event_none_1.json", Json.obj [("id", Json.num 1)])
      (List.mem_cons_self _ _)⟩,
   C6_index_superset.2 ex_mixed_items⟩

/-! ## C8: per-event failure handling -/

/-- Whether an extraction raised (`.error`) rather than writing a file. -/
def extraction_failed (r : Except Unit String) : Bool :=
  match r with
  | .error _ => true
  | .ok _ => false

theorem process_event_counts (st : Manager.RunState)
    (t s : Except Unit String) :
    (Manager.process_event st t s).processed + (Manager.process_event st t s).skipped =
      st.processed + st.skipped + 1 := by
  cases t with
  | error e => simp [Manager.process_event]; omega
  | ok tp =>
    cases s with
    | error e => simp [Manager.process_event]; omega
    | ok sp => simp [Manager.process_event]; omega

/-- C8: when either extraction for an event raises, every text file written
for that event is removed again (the run's file set is exactly what it was
before the event), the event counts as skipped, and the loop handles every
event of the list (one event's failure never aborts the run: the counters
always account for all events). -/
theorem C8_event_failure_cleanup :
    (∀ (st : Manager.RunState) (t s : Except Unit String),
        extraction_failed t = true ∨ extraction_failed s = true →
        (Manager.process_event st t s).files = st.files ∧
        (Manager.process_event st t s).skipped = st.skipped + 1 ∧
        (Manager.process_event st t s).processed = st.processed) ∧
    (∀ (st : Manager.RunState) (evs : List (Except Unit String × Except Unit String)),
        (Manager.run_events st evs).processed + (Manager.run_events st evs).skipped =
          st.processed + st.skipped + evs.length) := by
  constructor
  · intro st t s hfail
    cases t with
    | error e => simp [Manager.process_event, Manager.unlink_if_exists]
    | ok tp =>
      cases s with
      | ok sp => simp [extraction_failed] at hfail
      | error e =>
        refine ⟨?_, by simp [Manager.process_event], by simp [Manager.process_event]⟩
        simp only [Manager.process_event, Manager.unlink_if_exists, List.mem_cons]
        simp [List.erase_cons_head]
  · intro st evs
    induction evs generalizing st with
    | nil => simp [Manager.run_events]
    | cons ev rest ih =>
      obtain ⟨t, s⟩ := ev
      show (Manager.run_events (Manager.process_event st t s) rest).processed +
          (Manager.run_events (Manager.process_event st t s) rest).skipped = _
      rw [ih (Manager.process_event st t s)]
      have := process_event_counts st t s
      simp only [List.length_cons]
      omega

/-- C8 witness: a failing slide extraction after a successful transcript
write leaves the file set unchanged and counts the event as skipped. -/
theorem C8_event_failure_cleanup_witness :
    (extraction_failed (Except.ok ("t.txt")) = true ∨
      extraction_failed (Except.error ()) = true) ∧
    ((Manager.process_event ⟨["old.txt"], 3, 4⟩ (Except.ok ("t.txt"))
        (Except.error ())).files = ["old.txt"] ∧
      (Manager.process_event ⟨["old.txt"], 3, 4⟩ (Except.ok ("t.txt"))
        (Except.error ())).skipped = 4 + 1 ∧
      (Manager.process_event ⟨["old.txt"], 3, 4⟩ (Except.ok ("t.txt"))
        (Except.error ())).processed = 3) :=
  ⟨Or.inr rfl,
   C8_event_failure_cleanup.1 ⟨["old.txt"], 3, 4⟩ (Except.ok ("t.txt"))
     (Except.error ()) (Or.inr rfl)⟩

/-! ## C9: deck fileUrl resolution

## C2: slide quality gate -/

/-- Whether a deck record's `fileUrl` is missing in the script's sense:
absent, not a string, or the empty string. -/
def file_url_missing (deck : Json) : Bool :=
  match Json.get deck ("fileUrl") with
  | some (.str u) => u == ""
  | some _ => true
  | none => true

/-- Whether a deck record's `id` is not an integer. -/
def id_not_int (deck : Json) : Bool :=
  match Json.get deck ("id") with
  | some (.num _) => false
  | _ => true

theorem resolve_file_url0_none (deck : Json) (fd : Int → Json)
    (hm : file_url_missing deck = true) :
    SlidesToTxt.resolve_deck_file_url deck fd =
      (match Json.get deck ("id") with
       | some (.num deck_id) =>
         let deck2 := pyOrEmptyObj (Json.get (fd deck_id) ("data"))
         match Json.get deck2 ("fileUrl") with
         | some (.str u) =>
           if u = "" then .error .unresolved_fileurl else .ok (deck2, u)
         | _ => .error .unresolved_fileurl
       | _ => .error .missing_fileurl_and_id) := by
  unfold file_url_missing at hm
  unfold SlidesToTxt.resolve_deck_file_url
  cases h1 : Json.get deck ("fileUrl") with
  | none => rfl
  | some v =>
    rw [h1] at hm
    cases v with
    | str u =>
      have hu : u = "" := by simpa using hm
      subst hu
      rfl
    | null => rfl
    | bool b => rfl
    | num n => rfl
    | arr xs => rfl
    | obj kvs => rfl

theorem resolve_missing_nonint (deck : Json) (fd : Int → Json)
    (hm : file_url_missing deck = true) (hid : id_not_int deck = true) :
    SlidesToTxt.resolve_deck_file_url deck fd = .error .missing_fileurl_and_id := by
  rw [resolve_file_url0_none deck fd hm]
  unfold id_not_int at hid
  cases h2 : Json.get deck ("id") with
  | none => rfl
  | some v =>
    rw [h2] at hid
    cases v with
    | num n => simp at hid
    | null => rfl
    | bool b => rfl
    | str s => rfl
    | arr xs => rfl
    | obj kvs => rfl

theorem resolve_refetched_still_missing (deck : Json) (fd : Int → Json) (i : Int)
    (hm : file_url_missing deck = true)
    (hid : Json.get deck ("id") = some (.num i))
    (hm2 : file_url_missing (pyOrEmptyObj (Json.get (fd i) ("data"))) = true) :
    SlidesToTxt.resolve_deck_file_url deck fd = .error .unresolved_fileurl := by
  rw [resolve_file_url0_none deck fd hm, hid]
  unfold file_url_missing at hm2
  cases h3 : Json.get (pyOrEmptyObj (Json.get (fd i) ("data"))) ("fileUrl") with
  | none => simp only [h3]
  | some v =>
    rw [h3] at hm2
    cases v with
    | str u =>
      have hu : u = "" := by simpa using hm2
      subst hu
      simp [h3]
    | null => simp only [h3]
    | bool b => simp only [h3]
    | num n => simp only [h3]
    | arr xs => simp only [h3]
    | obj kvs => simp only [h3]

theorem resolve_refetched_ok (deck : Json) (fd : Int → Json) (i : Int) (u : String)
    (hm : file_url_missing deck = true)
    (hid : Json.get deck ("id") = some (.num i))
    (hurl : Json.get (pyOrEmptyObj (Json.get (fd i) ("data"))) ("fileUrl") =
      some (.str u))
    (hne : u ≠ "") :
    SlidesToTxt.resolve_deck_file_url deck fd =
      .ok (pyOrEmptyObj (Json.get (fd i) ("data")), u) := by
  rw [resolve_file_url0_none deck fd hm, hid]
  simp only [hurl]
  simp [hne]

/-- A deck record with neither `fileUrl` nor an integer `id`. -/
def ex_deck_no_id : Json := .obj [("id", .str ("abc"))]

/-- A deck record with an integer `id` but no usable `fileUrl`. -/
def ex_deck_id_only : Json := .obj [("id", .num 5), ("fileUrl", .str (""))]

/-- A deck-detail endpoint whose response resolves deck 5 to a payload with
a usable `fileUrl`. -/
def ex_detail_good : Int → Json := fun _ =>
  .obj [("data", .obj [("id", .num 5), ("eventId", .num 9),
    ("fileUrl", .str ("http://resolved/pdf"))])]

/-- A deck-detail endpoint whose response still lacks a `fileUrl`. -/
def ex_detail_bad : Int → Json := fun _ =>
  .obj [("data", .obj [("id", .num 5)])]

/-- C9: when a deck record's `fileUrl` is missing (absent, non-string, or
empty), a non-integer `id` fails the operation with the missing-field
error, independently of the remote endpoint (no remote call is consulted);
with an integer `id` the record is replaced by the fetched detail's `data`
payload and `fileUrl` is re-read, failing when still missing; every failure
path produces an error and hence no output file. -/
theorem C9_deck_fileurl_resolution :
    (∀ (deck : Json) (fd : Int → Json) (pdf : String → List String)
        (mc : ℚ) (mtc : Nat),
        file_url_missing deck = true → id_not_int deck = true →
        SlidesToTxt.slide_deck_obj_to_txt deck fd pdf mc mtc =
          .error .missing_fileurl_and_id) ∧
    (∀ (deck : Json) (fd1 fd2 : Int → Json),
        file_url_missing deck = true → id_not_int deck = true →
        SlidesToTxt.resolve_deck_file_url deck fd1 =
          SlidesToTxt.resolve_deck_file_url deck fd2) ∧
    (∀ (deck : Json) (fd : Int → Json) (pdf : String → List String)
        (mc : ℚ) (mtc : Nat) (i : Int),
        file_url_missing deck = true →
        Json.get deck ("id") = some (.num i) →
        file_url_missing (pyOrEmptyObj (Json.get (fd i) ("data"))) = true →
        SlidesToTxt.slide_deck_obj_to_txt deck fd pdf mc mtc =
          .error .unresolved_fileurl) ∧
    (∀ (deck : Json) (fd : Int → Json) (i : Int) (u : String),
        file_url_missing deck = true →
        Json.get deck ("id") = some (.num i) →
        Json.get (pyOrEmptyObj (Json.get (fd i) ("data"))) ("fileUrl") =
          some (.str u) →
        u ≠ "" →
        SlidesToTxt.resolve_deck_file_url deck fd =
          .ok (pyOrEmptyObj (Json.get (fd i) ("data")), u)) := by
  refine ⟨?_, ?_, ?_, resolve_refetched_ok⟩
  · intro deck fd pdf mc mtc hm hid
    unfold SlidesToTxt.slide_deck_obj_to_txt
    rw [resolve_missing_nonint deck fd hm hid]
  · intro deck fd1 fd2 hm hid
    rw [resolve_missing_nonint deck fd1 hm hid, resolve_missing_nonint deck fd2 hm hid]
  · intro deck fd pdf mc mtc i hm hid hm2
    unfold SlidesToTxt.slide_deck_obj_to_txt
    rw [resolve_refetched_still_missing deck fd i hm hid hm2]

/-- C9 witness: the fallback clauses at concrete deck records and
endpoints. -/
theorem C9_deck_fileurl_resolution_witness :
    (file_url_missing ex_deck_no_id = true ∧ id_not_int ex_deck_no_id = true ∧
      SlidesToTxt.slide_deck_obj_to_txt ex_deck_no_id ex_detail_good
        (fun _ => []) 0 0 = .error .missing_fileurl_and_id) ∧
    (file_url_missing ex_deck_id_only = true ∧
      Json.get ex_deck_id_only ("id") = some (.num 5) ∧
      file_url_missing (pyOrEmptyObj (Json.get (ex_detail_bad 5) ("data"))) = true ∧
      SlidesToTxt.slide_deck_obj_to_txt ex_deck_id_only ex_detail_bad
        (fun _ => []) 0 0 = .error .unresolved_fileurl) ∧
    (Json.get (pyOrEmptyObj (Json.get (ex_detail_good 5) ("data"))) ("fileUrl") =
        some (.str ("http://resolved/pdf")) ∧
      SlidesToTxt.resolve_deck_file_url ex_deck_id_only ex_detail_good =
        .ok (pyOrEmptyObj (Json.get (ex_detail_good 5) ("data")),
          "http://resolved/pdf")) :=
  ⟨⟨rfl, rfl,
    C9_deck_fileurl_resolution.1 ex_deck_no_id ex_detail_good (fun _ => []) 0 0 rfl rfl⟩,
   ⟨rfl, rfl, rfl,
    C9_deck_fileurl_resolution.2.2.1 ex_deck_id_only ex_detail_bad (fun _ => []) 0 0 5
      rfl rfl rfl⟩,
   ⟨rfl,
    C9_deck_fileurl_resolution.2.2.2 ex_deck_id_only ex_detail_good 5
      ("http://resolved/pdf") rfl rfl rfl (by simp)⟩⟩

/-- Deck record used by the quality-gate examples: a usable `fileUrl` is
present, so extraction proceeds straight to the PDF. -/
def ex_deck : Json :=
  .obj [("id", .num 5), ("eventId", .num 9), ("fileUrl", .str ("http://x/pdf")),
        ("event", .obj [("title", .str ("Q1 Call"))])]

/-- A 50-character extracted page text. -/
def a50 : String := String.mk (List.replicate 50 'a')

/-- A 100-character extracted page text. -/
def a100 : String := String.mk (List.replicate 100 'a')

/-- Raw page texts of a 10-page PDF with one non-empty page of 50
characters. -/
def ex_reject_lines : List String :=
  [a50, "", "", "", "", "", "", "", "", ""]

/-- Raw page texts of a 10-page PDF with three non-empty pages totalling
250 characters. -/
def ex_accept_lines : List String :=
  [a100, "", "", a100, "", "", a50, "", "", ""]

/-- The rejected PDF, as served by the mock downloader. -/
def ex_pdf_reject : String → List String := fun _ => ex_reject_lines

/-- The accepted PDF, as served by the mock downloader. -/
def ex_pdf_accept : String → List String := fun _ => ex_accept_lines

/-- C2: once the deck's `fileUrl` resolves, `slide_deck_obj_to_txt` fails
exactly when the page count is zero, the coverage is below the minimum, or
the total characters are below the minimum, and only the success branch
produces output; the 10-page example with one 50-character page is
rejected, the 10-page example with three pages and 250 characters is
accepted, writing all 10 lines, 7 of them blank. -/
theorem C2_slide_quality_gate :
    (∀ (deck : Json) (fd : Int → Json) (pdf : String → List String)
        (mc : ℚ) (mtc : Nat) (dobj : Json) (url : String),
        SlidesToTxt.resolve_deck_file_url deck fd = .ok (dobj, url) →
        ((∃ e, SlidesToTxt.slide_deck_obj_to_txt deck fd pdf mc mtc = .error e) ↔
          (((pdf url).map SlidesToTxt.normalize_one_line).length = 0 ∨
            SlidesToTxt.coverage ((pdf url).map SlidesToTxt.normalize_one_line) < mc ∨
            SlidesToTxt.total_chars ((pdf url).map SlidesToTxt.normalize_one_line) < mtc))) ∧
    SlidesToTxt.slide_deck_obj_to_txt ex_deck ex_detail_good ex_pdf_reject
        (1/5) 200 = .error .too_sparse ∧
    SlidesToTxt.slide_deck_obj_to_txt ex_deck ex_detail_good ex_pdf_accept
        (1/5) 200 =
      .ok (SlidesToTxt.slide_txt_filename ex_deck, joinNL ex_accept_lines ++ "\n") ∧
    ex_accept_lines.length = 10 ∧ ex_accept_lines.count ("") = 7 := by
  have hunfold : ∀ (deck : Json) (fd : Int → Json) (pdf : String → List String)
      (mc : ℚ) (mtc : Nat) (dobj : Json) (url : String),
      SlidesToTxt.resolve_deck_file_url deck fd = .ok (dobj, url) →
      SlidesToTxt.slide_deck_obj_to_txt deck fd pdf mc mtc =
        (if ((pdf url).map SlidesToTxt.normalize_one_line).length = 0 then
          .error .zero_pages
        else if SlidesToTxt.coverage ((pdf url).map SlidesToTxt.normalize_one_line) < mc ∨
            SlidesToTxt.total_chars ((pdf url).map SlidesToTxt.normalize_one_line) < mtc then
          .error .too_sparse
        else .ok (SlidesToTxt.slide_txt_filename dobj,
          joinNL ((pdf url).map SlidesToTxt.normalize_one_line) ++ "\n")) := by
    intro deck fd pdf mc mtc dobj url hres
    unfold SlidesToTxt.slide_deck_obj_to_txt
    rw [hres]
  refine ⟨?_, ?_, ?_, by decide, by decide⟩
  · intro deck fd pdf mc mtc dobj url hres
    rw [hunfold deck fd pdf mc mtc dobj url hres]
    by_cases h0 : ((pdf url).map SlidesToTxt.normalize_one_line).length = 0
    · simp only [h0, if_pos rfl]
      simp [h0]
    · rw [if_neg h0]
      by_cases h1 : SlidesToTxt.coverage ((pdf url).map SlidesToTxt.normalize_one_line) < mc ∨
          SlidesToTxt.total_chars ((pdf url).map SlidesToTxt.normalize_one_line) < mtc
      · rw [if_pos h1]
        simp [h0, h1]
      · rw [if_neg h1]
        constructor
        · rintro ⟨e, he⟩; simp at he
        · intro hcond
          exfalso
          rcases hcond with hc | hc | hc
          · exact h0 hc
          · exact h1 (Or.inl hc)
          · exact h1 (Or.inr hc)
  · have hres : SlidesToTxt.resolve_deck_file_url ex_deck ex_detail_good =
        .ok (ex_deck, "http://x/pdf") := rfl
    rw [hunfold ex_deck ex_detail_good ex_pdf_reject (1/5) 200 ex_deck
      ("http://x/pdf") hres]
    have hmap : (ex_pdf_reject ("http://x/pdf")).map SlidesToTxt.normalize_one_line =
        ex_reject_lines := rfl
    rw [hmap]
    have h0 : ¬ ex_reject_lines.length = 0 := by decide
    rw [if_neg h0]
    have hne : SlidesToTxt.non_empty_pages ex_reject_lines = 1 := by decide
    have hlen : ex_reject_lines.length = 10 := by decide
    have hcov : SlidesToTxt.coverage ex_reject_lines = 1 / 10 := by
      simp [SlidesToTxt.coverage, hne, hlen]
    have h1 : SlidesToTxt.coverage ex_reject_lines < 1/5 ∨
        SlidesToTxt.total_chars ex_reject_lines < 200 := by
      left; rw [hcov]; norm_num
    rw [if_pos h1]
  · have hres : SlidesToTxt.resolve_deck_file_url ex_deck ex_detail_good =
        .ok (ex_deck, "http://x/pdf") := rfl
    rw [hunfold ex_deck ex_detail_good ex_pdf_accept (1/5) 200 ex_deck
      ("http://x/pdf") hres]
    have hmap : (ex_pdf_accept ("http://x/pdf")).map SlidesToTxt.normalize_one_line =
        ex_accept_lines := rfl
    rw [hmap]
    have h0 : ¬ ex_accept_lines.length = 0 := by decide
    rw [if_neg h0]
    have hne : SlidesToTxt.non_empty_pages ex_accept_lines = 3 := by decide
    have hlen : ex_accept_lines.length = 10 := by decide
    have hcov : SlidesToTxt.coverage ex_accept_lines = 3 / 10 := by
      simp [SlidesToTxt.coverage, hne, hlen]
    have htc : SlidesToTxt.total_chars ex_accept_lines = 250 := by decide
    have h1 : ¬ (SlidesToTxt.coverage ex_accept_lines < 1/5 ∨
        SlidesToTxt.total_chars ex_accept_lines < 200) := by
      rw [hcov, htc]
      push_neg
      constructor
      · norm_num
      · omega
    rw [if_neg h1]

/-- C2 witness: the gate equivalence instantiated at the accepted
example. -/
theorem C2_slide_quality_gate_witness :
    (SlidesToTxt.resolve_deck_file_url ex_deck ex_detail_good =
        .ok (ex_deck, "http://x/pdf")) ∧
    ((∃ e, SlidesToTxt.slide_deck_obj_to_txt ex_deck ex_detail_good ex_pdf_accept
        (1/5) 200 = .error e) ↔
      (((ex_pdf_accept ("http://x/pdf")).map SlidesToTxt.normalize_one_line).length = 0 ∨
        SlidesToTxt.coverage ((ex_pdf_accept ("http://x/pdf")).map
          SlidesToTxt.normalize_one_line) < 1/5 ∨
        SlidesToTxt.total_chars ((ex_pdf_accept ("http://x/pdf")).map
          SlidesToTxt.normalize_one_line) < 200)) :=
  ⟨rfl,
   C2_slide_quality_gate.1 ex_deck ex_detail_good ex_pdf_accept (1/5) 200 ex_deck
     ("http://x/pdf") rfl⟩

/-! ## C7: filename uniqueness -/

theorem string_data_append (a b : String) : (a ++ b).data = a.data ++ b.data := rfl

/-- Big-endian decimal value of a digit list. -/
def digitsVal (l : List Char) : Nat :=
  l.foldl (fun a c => 10 * a + (c.toNat - 48)) 0

theorem digitsVal_append_singleton (l : List Char) (c : Char) :
    digitsVal (l ++ [c]) = 10 * digitsVal l + (c.toNat - 48) := by
  simp [digitsVal, List.foldl_append]

theorem digitChar_toNat (n : Nat) (h : n < 10) : (Nat.digitChar n).toNat - 48 = n := by
  interval_cases n <;> decide

theorem digitChar_bounds (n : Nat) (h : n < 10) :
    48 ≤ (Nat.digitChar n).toNat ∧ (Nat.digitChar n).toNat ≤ 57 := by
  interval_cases n <;> decide

theorem natReprAux_val : ∀ f n : Nat, n < 10 ^ f → digitsVal (natReprAux f n) = n := by
  intro f
  induction f with
  | zero =>
    intro n h
    simp only [pow_zero, Nat.lt_one_iff] at h
    subst h
    rfl
  | succ f ih =>
    intro n h
    by_cases h10 : n < 10
    · simp only [natReprAux, h10, if_pos]
      show 10 * 0 + ((Nat.digitChar n).toNat - 48) = n
      rw [digitChar_toNat n h10]
      omega
    · rw [natReprAux, if_neg h10, digitsVal_append_singleton]
      have hdiv : n / 10 < 10 ^ f := by
        rw [Nat.div_lt_iff_lt_mul (by norm_num)]
        calc n < 10 ^ (f + 1) := h
        _ = 10 ^ f * 10 := by ring
      rw [ih (n / 10) hdiv, digitChar_toNat (n % 10) (Nat.mod_lt _ (by norm_num))]
      omega

theorem natReprAux_digit : ∀ f n : Nat, ∀ c ∈ natReprAux f n,
    48 ≤ c.toNat ∧ c.toNat ≤ 57 := by
  intro f
  induction f with
  | zero => intro n c hc; simp [natReprAux] at hc
  | succ f ih =>
    intro n c hc
    by_cases h10 : n < 10
    · rw [natReprAux, if_pos h10] at hc
      simp only [List.mem_singleton] at hc
      subst hc
      exact digitChar_bounds n h10
    · rw [natReprAux, if_neg h10] at hc
      rcases List.mem_append.mp hc with hc1 | hc1
      · exact ih (n / 10) c hc1
      · simp only [List.mem_singleton] at hc1
        subst hc1
        exact digitChar_bounds (n % 10) (Nat.mod_lt _ (by norm_num))

theorem natReprAux_ne_nil (f n : Nat) (hf : 0 < f) : natReprAux f n ≠ [] := by
  cases f with
  | zero => omega
  | succ f2 =>
    rw [natReprAux]
    by_cases h10 : n < 10
    · simp [h10]
    · simp [h10]

theorem nat_lt_ten_pow_succ (n : Nat) : n < 10 ^ (n + 1) :=
  lt_of_lt_of_le
    (lt_of_lt_of_le (Nat.lt_two_pow n)
      (Nat.pow_le_pow_right (by norm_num) (Nat.le_succ n)))
    (Nat.pow_le_pow_left (by norm_num) (n + 1))

theorem natRepr_inj (a b : Nat) (h : natRepr a = natRepr b) : a = b := by
  have hd : natReprAux (a + 1) a = natReprAux (b + 1) b := congrArg String.data h
  calc a = digitsVal (natReprAux (a + 1) a) := (natReprAux_val _ a (nat_lt_ten_pow_succ a)).symm
  _ = digitsVal (natReprAux (b + 1) b) := by rw [hd]
  _ = b := natReprAux_val _ b (nat_lt_ten_pow_succ b)

theorem natRepr_head_digit (n : Nat) :
    ∃ c t, (natRepr n).data = c :: t ∧ 48 ≤ c.toNat ∧ c.toNat ≤ 57 := by
  cases hl : natReprAux (n + 1) n with
  | nil => exact absurd hl (natReprAux_ne_nil (n + 1) n (by omega))
  | cons c t =>
    refine ⟨c, t, hl, ?_⟩
    exact natReprAux_digit (n + 1) n c (by rw [hl]; simp)

theorem intRepr_inj (a b : Int) (h : intRepr a = intRepr b) : a = b := by
  by_cases ha : a < 0 <;> by_cases hb : b < 0
  · rw [intRepr, if_pos ha, intRepr, if_pos hb] at h
    have hd := congrArg String.data h
    simp only [string_data_append] at hd
    have hdata : (natRepr a.natAbs).data = (natRepr b.natAbs).data := by
      simpa using hd
    have := natRepr_inj a.natAbs b.natAbs (String.ext hdata)
    omega
  · exfalso
    rw [intRepr, if_pos ha, intRepr, if_neg hb] at h
    obtain ⟨c, t, hct, hlo, _⟩ := natRepr_head_digit b.natAbs
    have hd := congrArg String.data h
    simp only [string_data_append] at hd
    rw [hct] at hd
    have : ('-' : Char) = c := by
      have h2 : ('-' :: (natRepr a.natAbs).data : List Char) = c :: t := by
        simpa using hd
      exact (List.cons.injEq _ _ _ _ ▸ h2).1
    rw [← this] at hlo
    simp at hlo
  · exfalso
    rw [intRepr, if_neg ha, intRepr, if_pos hb] at h
    obtain ⟨c, t, hct, hlo, _⟩ := natRepr_head_digit a.natAbs
    have hd := congrArg String.data h
    simp only [string_data_append] at hd
    rw [hct] at hd
    have : c = ('-' : Char) := by
      have h2 : (c :: t : List Char) = '-' :: (natRepr b.natAbs).data := by
        simpa using hd
      exact (List.cons.injEq _ _ _ _ ▸ h2).1
    rw [this] at hlo
    simp at hlo
  · rw [intRepr, if_neg ha, intRepr, if_neg hb] at h
    have := natRepr_inj a.natAbs b.natAbs h
    omega

theorem intRepr_no_underscore (i : Int) : ('_' : Char) ∉ (intRepr i).data := by
  intro hmem
  rw [intRepr] at hmem
  by_cases hi : i < 0
  · rw [if_pos hi] at hmem
    simp only [string_data_append] at hmem
    rcases List.mem_append.mp hmem with h1 | h1
    · simp at h1
    · have := natReprAux_digit (i.natAbs + 1) i.natAbs '_' h1
      simp at this
  · rw [if_neg hi] at hmem
    have := natReprAux_digit (i.natAbs + 1) i.natAbs '_' hmem
    simp at this

theorem last_underscore_split : ∀ p s q t : List Char,
    ('_' : Char) ∉ s → ('_' : Char) ∉ t → p ++ '_' :: s = q ++ '_' :: t → s = t := by
  intro p
  induction p with
  | nil =>
    intro s q t hs ht h
    cases q with
    | nil => simpa using h
    | cons c q2 =>
      simp only [List.nil_append, List.cons_append, List.cons.injEq] at h
      exfalso
      apply hs
      rw [h.2]
      simp
  | cons c p2 ih =>
    intro s q t hs ht h
    cases q with
    | nil =>
      simp only [List.cons_append, List.nil_append, List.cons.injEq] at h
      exfalso
      apply ht
      rw [← h.2]
      simp
    | cons d q2 =>
      simp only [List.cons_append, List.cons.injEq] at h
      exact ih s q2 t hs ht h.2

theorem concat_underscore_int_ext_inj (pd qd : List Char) (i j : Int) (ed : List Char)
    (hed : ('_' : Char) ∉ ed)
    (h : pd ++ '_' :: ((intRepr i).data ++ ed) = qd ++ '_' :: ((intRepr j).data ++ ed)) :
    i = j := by
  have hnu1 : ('_' : Char) ∉ (intRepr i).data ++ ed := by
    intro hm
    rcases List.mem_append.mp hm with hm1 | hm1
    · exact intRepr_no_underscore i hm1
    · exact hed hm1
  have hnu2 : ('_' : Char) ∉ (intRepr j).data ++ ed := by
    intro hm
    rcases List.mem_append.mp hm with hm1 | hm1
    · exact intRepr_no_underscore j hm1
    · exact hed hm1
  have hs := last_underscore_split pd _ qd _ hnu1 hnu2 h
  have hdata := List.append_cancel_right hs
  exact intRepr_inj i j (String.ext hdata)

theorem underscore_ext_filename_inj (ext : String) (hext : ('_' : Char) ∉ ext.data)
    (X1 X2 : String) (i j : Int)
    (h : X1 ++ "_" ++ intRepr i ++ ext = X2 ++ "_" ++ intRepr j ++ ext) : i = j := by
  apply concat_underscore_int_ext_inj X1.data X2.data i j ext.data hext
  have hd := congrArg String.data h
  simp only [string_data_append, List.append_assoc] at hd
  exact hd

theorem deck_suffix_filename_inj (X1 X2 : String) (i j : Int)
    (h : X1 ++ "_deck_" ++ intRepr i ++ ".txt" = X2 ++ "_deck_" ++ intRepr j ++ ".txt") :
    i = j := by
  apply concat_underscore_int_ext_inj (X1 ++ "_deck").data (X2 ++ "_deck").data i j
    (".txt".data) (by decide)
  have hd := congrArg String.data h
  simp only [string_data_append, List.append_assoc] at hd ⊢
  exact hd

/-- C7: within one ticker's directories, the per-record meta file names,
the transcript text file names, and the slide text file names are pairwise
distinct as soon as the embedded integer identifiers differ, because each
name ends in `_<id>.<ext>` and the decimal id rendering is injective and
free of underscores. -/
theorem C7_filename_uniqueness :
    (∀ (i1 i2 : Json) (d1 d2 : Int) (f1 f2 : String),
        Json.get i1 ("id") = some (.num d1) → Json.get i2 ("id") = some (.num d2) →
        d1 ≠ d2 →
        GetMeta.meta_json_filename i1 = some f1 →
        GetMeta.meta_json_filename i2 = some f2 →
        f1 ≠ f2) ∧
    (∀ (m1 m2 : Json) (d1 d2 : Int),
        Json.get m1 ("id") = some (.num d1) → Json.get m2 ("id") = some (.num d2) →
        d1 ≠ d2 →
        MetaToTxt.transcript_txt_filename m1 ≠ MetaToTxt.transcript_txt_filename m2) ∧
    (∀ (k1 k2 : Json) (d1 d2 : Int),
        Json.get k1 ("id") = some (.num d1) → Json.get k2 ("id") = some (.num d2) →
        d1 ≠ d2 →
        SlidesToTxt.slide_txt_filename k1 ≠ SlidesToTxt.slide_txt_filename k2) := by
  refine ⟨?_, ?_, ?_⟩
  · intro i1 i2 d1 d2 f1 f2 h1 h2 hne hf1 hf2 heq
    rw [GetMeta.meta_json_filename, h1] at hf1
    rw [GetMeta.meta_json_filename, h2] at hf2
    simp only [Option.some.injEq] at hf1 hf2
    apply hne
    apply underscore_ext_filename_inj (".json") (by decide)
      (GetMeta.sanitize_slug (GetMeta.meta_record_title i1) 80)
      (GetMeta.sanitize_slug (GetMeta.meta_record_title i2) 80) d1 d2
    rw [hf1, hf2]
    exact heq
  · intro m1 m2 d1 d2 h1 h2 hne heq
    unfold MetaToTxt.transcript_txt_filename at heq
    rw [h1, h2] at heq
    apply hne
    apply underscore_ext_filename_inj (".txt") (by decide) _ _ d1 d2
    have hshape : ∀ (X : String) (d : Int),
        X ++ ("_" ++ intRepr d) ++ ".txt" = X ++ "_" ++ intRepr d ++ ".txt" := by
      intro X d
      apply String.ext
      simp only [string_data_append, List.append_assoc]
    rw [hshape, hshape] at heq
    exact heq
  · intro k1 k2 d1 d2 h1 h2 hne heq
    unfold SlidesToTxt.slide_txt_filename at heq
    rw [h1, h2] at heq
    apply hne
    apply deck_suffix_filename_inj _ _ d1 d2
    have hshape : ∀ (T E : String) (d : Int),
        T ++ "_event_" ++ E ++ "_deck_" ++ intRepr d ++ ".txt" =
          (T ++ "_event_" ++ E) ++ "_deck_" ++ intRepr d ++ ".txt" := by
      intro T E d
      apply String.ext
      simp only [string_data_append, List.append_assoc]
    have heq2 :
        (SlidesToTxt.sanitize_filename
            (match Json.get (pyOrEmptyObj (Json.get k1 ("event"))) ("title") with
             | some v => if pyTruthy v then pyStrOf v
               else "event_" ++ pyStrOfOpt (Json.get k1 ("eventId"))
             | none => "event_" ++ pyStrOfOpt (Json.get k1 ("eventId"))) ++
          "_event_" ++ pyStrOfOpt (Json.get k1 ("eventId"))) ++ "_deck_" ++
          intRepr d1 ++ ".txt" =
        (SlidesToTxt.sanitize_filename
            (match Json.get (pyOrEmptyObj (Json.get k2 ("event"))) ("title") with
             | some v => if pyTruthy v then pyStrOf v
               else "event_" ++ pyStrOfOpt (Json.get k2 ("eventId"))
             | none => "event_" ++ pyStrOfOpt (Json.get k2 ("eventId"))) ++
          "_event_" ++ pyStrOfOpt (Json.get k2 ("eventId"))) ++ "_deck_" ++
          intRepr d2 ++ ".txt" := by
      rw [← hshape, ← hshape]
      exact heq
    exact heq2

/-- C7 witness: two meta records, two transcript records, and two deck
records with distinct integer ids produce distinct file names. -/
theorem C7_filename_uniqueness_witness :
    (Json.get (Json.obj [("id", Json.num 1)]) ("id") = some (Json.num 1) ∧
      Json.get (Json.obj [("id", Json.num 2)]) ("id") = some (Json.num 2) ∧
      (1 : Int) ≠ 2 ∧
      GetMeta.meta_json_filename (Json.obj [("id", Json.num 1)]) =
        some ("event_none_1.json") ∧
      GetMeta.meta_json_filename (Json.obj [("id", Json.num 2)]) =
        some ("event_none_2.json") ∧
      ("event_none_1.json" : String) ≠ "event_none_2.json") ∧
    MetaToTxt.transcript_txt_filename (Json.obj [("id", Json.num 1)]) ≠
      MetaToTxt.transcript_txt_filename (Json.obj [("id", Json.num 2)]) ∧
    SlidesToTxt.slide_txt_filename (Json.obj [("id", Json.num 1)]) ≠
      SlidesToTxt.slide_txt_filename (Json.obj [("id", Json.num 2)]) :=
  ⟨⟨rfl, rfl, by omega, rfl, rfl,
    C7_filename_uniqueness.1 (Json.obj [("id", Json.num 1)])
      (Json.obj [("id", Json.num 2)]) 1 2 ("event_none_1.json")
      ("event_none_2.json") rfl rfl (by omega) rfl rfl⟩,
   C7_filename_uniqueness.2.1 (Json.obj [("id", Json.num 1)])
     (Json.obj [("id", Json.num 2)]) 1 2 rfl rfl (by omega),
   C7_filename_uniqueness.2.2 (Json.obj [("id", Json.num 1)])
     (Json.obj [("id", Json.num 2)]) 1 2 rfl rfl (by omega)⟩

/-! ## C1: transcript fallback chain -/

theorem spec_join_eq (v : Option Json) :
    spec_join_array v = MetaToTxt.join_text_array v := rfl

theorem array_hit_eq_spec4 (t : Json) :
    MetaToTxt.array_fields_hit t = spec_step4 t := rfl

/-- The claim's first example payload. -/
def ex_transcript_hello : Json :=
  .obj [("transcript", .obj [("text", .str ("Hello"))])]

/-- The claim's second example payload. -/
def ex_transcript_segments : Json :=
  .obj [("transcript", .obj [("segments",
    .arr [.obj [("text", .str ("A"))], .obj [("text", .str ("B"))]])])]

theorem dict_stage_eq_spec_chain (kvs : List (String × Json)) :
    MetaToTxt.dict_stage (.obj kvs) =
      (((spec_step1 (.obj kvs) <|> spec_step2 (.obj kvs)) <|> spec_step3 (.obj kvs)) <|>
        spec_step4 (.obj kvs)) := by
  unfold MetaToTxt.dict_stage
  cases hg : Json.get (.obj kvs) ("transcript") with
  | none =>
    have h1 : spec_step1 (.obj kvs) = none := by unfold spec_step1; rw [hg]
    have h2 : spec_step2 (.obj kvs) = none := by unfold spec_step2; rw [hg]
    rw [h1, h2]
    rfl
  | some t =>
    cases t with
    | obj tkvs =>
      have h1 : spec_step1 (.obj kvs) = MetaToTxt.scalar_field_hit (.obj tkvs) := by
        unfold spec_step1
        rw [hg]
        rfl
      have h2 : spec_step2 (.obj kvs) = MetaToTxt.array_fields_hit (.obj tkvs) := by
        unfold spec_step2
        rw [hg]
        rfl
      rw [h1, h2]
      rfl
    | null =>
      have h1 : spec_step1 (.obj kvs) = none := by unfold spec_step1; rw [hg]
      have h2 : spec_step2 (.obj kvs) = none := by unfold spec_step2; rw [hg]
      rw [h1, h2]
      rfl
    | bool b =>
      have h1 : spec_step1 (.obj kvs) = none := by unfold spec_step1; rw [hg]
      have h2 : spec_step2 (.obj kvs) = none := by unfold spec_step2; rw [hg]
      rw [h1, h2]
      rfl
    | num n =>
      have h1 : spec_step1 (.obj kvs) = none := by unfold spec_step1; rw [hg]
      have h2 : spec_step2 (.obj kvs) = none := by unfold spec_step2; rw [hg]
      rw [h1, h2]
      rfl
    | str s =>
      have h1 : spec_step1 (.obj kvs) = none := by unfold spec_step1; rw [hg]
      have h2 : spec_step2 (.obj kvs) = none := by unfold spec_step2; rw [hg]
      rw [h1, h2]
      rfl
    | arr xs =>
      have h1 : spec_step1 (.obj kvs) = none := by unfold spec_step1; rw [hg]
      have h2 : spec_step2 (.obj kvs) = none := by unfold spec_step2; rw [hg]
      rw [h1, h2]
      rfl

/-- C1: `extract_text_from_raw_transcript` is exactly the spec's fallback
chain in order, first match wins — scalar `transcript` fields, then
`transcript` array fields, then the top-level `text`, then the root array
fields, then the deep-collection stage; the payload
`{"transcript": {"text": "Hello"}}` yields `"Hello"` and
`{"transcript": {"segments": [{"text":"A"},{"text":"B"}]}}` yields
`"A\nB"`. -/
theorem C1_fallback_chain :
    (∀ raw : Json,
        MetaToTxt.extract_text_from_raw_transcript raw =
          ((((spec_step1 raw <|> spec_step2 raw) <|> spec_step3 raw) <|>
            spec_step4 raw) <|> MetaToTxt.deep_stage raw)) ∧
    MetaToTxt.extract_text_from_raw_transcript ex_transcript_hello =
      some ("Hello") ∧
    MetaToTxt.extract_text_from_raw_transcript ex_transcript_segments =
      some ("A\nB") := by
  refine ⟨?_, rfl, rfl⟩
  intro raw
  cases raw with
  | obj kvs =>
    show (MetaToTxt.dict_stage (.obj kvs) <|> MetaToTxt.deep_stage (.obj kvs)) = _
    rw [dict_stage_eq_spec_chain kvs]
  | null => rfl
  | bool b => rfl
  | num n => rfl
  | str s => rfl
  | arr xs => rfl

/-! ## C10: stripped, non-blank extraction output -/

theorem dropWhile_head_false {α : Type} (p : α → Bool) :
    ∀ (l : List α) (c : α) (t : List α), List.dropWhile p l = c :: t → p c = false := by
  intro l
  induction l with
  | nil => intro c t h; simp at h
  | cons a l2 ih =>
    intro c t h
    rw [List.dropWhile_cons] at h
    by_cases ha : p a = true
    · rw [if_pos ha] at h
      exact ih c t h
    · rw [if_neg ha] at h
      have hac : a = c := (List.cons.injEq _ _ _ _ ▸ h).1
      rw [← hac]
      exact Bool.not_eq_true _ ▸ ha

theorem dropWhile_dropWhile {α : Type} (p : α → Bool) (l : List α) :
    (l.dropWhile p).dropWhile p = l.dropWhile p := by
  cases h : l.dropWhile p with
  | nil => simp
  | cons c t =>
    have hc := dropWhile_head_false p l c t h
    simp [List.dropWhile_cons, hc]

theorem stripChars_pref_of_dropWhile (p : Char → Bool) (l : List Char) :
    (stripChars p l) <+: (l.dropWhile p) := by
  have h1 : List.dropWhile p (l.dropWhile p).reverse <:+ (l.dropWhile p).reverse :=
    List.dropWhile_suffix p
  have h2 := List.reverse_prefix.mpr h1
  rwa [List.reverse_reverse] at h2

theorem dropWhile_stripChars (p : Char → Bool) (l : List Char) :
    List.dropWhile p (stripChars p l) = stripChars p l := by
  cases hr : stripChars p l with
  | nil => simp
  | cons c t =>
    have hpre := stripChars_pref_of_dropWhile p l
    rw [hr] at hpre
    obtain ⟨k, hk⟩ := hpre
    have hc : p c = false := by
      apply dropWhile_head_false p l c (t ++ k)
      rw [← hk]
      simp
    simp [List.dropWhile_cons, hc]

theorem stripChars_idem (p : Char → Bool) (l : List Char) :
    stripChars p (stripChars p l) = stripChars p l := by
  show (((stripChars p l).dropWhile p).reverse.dropWhile p).reverse = stripChars p l
  rw [dropWhile_stripChars]
  show (((((l.dropWhile p).reverse.dropWhile p).reverse).reverse).dropWhile p).reverse =
    stripChars p l
  rw [List.reverse_reverse, dropWhile_dropWhile]
  rfl

theorem stripChars_eq_nil_iff (p : Char → Bool) (l : List Char) :
    stripChars p l = [] ↔ ∀ c ∈ l, p c = true := by
  unfold stripChars
  rw [List.reverse_eq_nil_iff, List.dropWhile_eq_nil_iff]
  constructor
  · intro h c hc
    rw [← List.takeWhile_append_dropWhile (p := p) (l := l)] at hc
    rcases List.mem_append.mp hc with hc1 | hc1
    · exact List.mem_takeWhile_imp hc1
    · exact h c (List.mem_reverse.mpr hc1)
  · intro h c hc
    exact h c ((List.dropWhile_sublist p).subset (List.mem_reverse.mp hc))

theorem pyStrip_idem (s : String) : pyStrip (pyStrip s) = pyStrip s := by
  show String.mk (stripChars isPySpace (stripChars isPySpace s.data)) = pyStrip s
  rw [stripChars_idem]
  rfl

theorem pyStrip_eq_empty_iff (s : String) :
    pyStrip s = "" ↔ ∀ c ∈ s.data, isPySpace c = true := by
  constructor
  · intro h c hc
    have hdata : stripChars isPySpace s.data = [] := congrArg String.data h
    exact (stripChars_eq_nil_iff isPySpace s.data).mp hdata c hc
  · intro h
    apply String.ext
    show stripChars isPySpace s.data = []
    exact (stripChars_eq_nil_iff _ _).mpr h

theorem mem_joinNL_data : ∀ (parts : List String) (s : String), s ∈ parts →
    ∀ c ∈ s.data, c ∈ (joinNL parts).data := by
  intro parts
  induction parts with
  | nil => intro s hs; simp at hs
  | cons a t ih =>
    intro s hs c hc
    cases t with
    | nil =>
      rcases List.mem_cons.mp hs with h | h
      · subst h; exact hc
      · simp at h
    | cons b t2 =>
      have hjoin : joinNL (a :: b :: t2) = a ++ "\n" ++ joinNL (b :: t2) := rfl
      rw [hjoin]
      simp only [string_data_append, List.mem_append]
      rcases List.mem_cons.mp hs with h | h
      · subst h; exact Or.inl (Or.inl hc)
      · exact Or.inr (ih s h c hc)

/-- The hygiene property every extraction fragment satisfies. -/
def stripped_nonblank (s : String) : Prop := s ≠ "" ∧ pyStrip s = s

theorem exists_nonspace_of_stripped_nonblank (s : String)
    (h : stripped_nonblank s) : ∃ c ∈ s.data, isPySpace c = false := by
  by_contra hno
  push_neg at hno
  have hall : ∀ c ∈ s.data, isPySpace c = true := by
    intro c hc
    have := hno c hc
    simpa using this
  have : pyStrip s = "" := (pyStrip_eq_empty_iff s).mpr hall
  rw [h.2] at this
  exact h.1 this

theorem pyStrip_joinNL_ne_empty (chunks : List String)
    (hne : chunks ≠ []) (hall : ∀ s ∈ chunks, stripped_nonblank s) :
    pyStrip (joinNL chunks) ≠ "" := by
  obtain ⟨a, t, rfl⟩ : ∃ a t, chunks = a :: t := by
    cases chunks with
    | nil => exact absurd rfl hne
    | cons a t => exact ⟨a, t, rfl⟩
  have ha := hall a (by simp)
  obtain ⟨c, hc, hcp⟩ := exists_nonspace_of_stripped_nonblank a ha
  intro hempty
  have := (pyStrip_eq_empty_iff _).mp hempty c
    (mem_joinNL_data (a :: t) a (by simp) c hc)
  rw [this] at hcp
  simp at hcp

theorem option_orElse_eq_some {α : Type} (a b : Option α) (x : α)
    (h : (a <|> b) = some x) : a = some x ∨ b = some x := by
  cases a with
  | some y => left; simpa using h
  | none => right; simpa using h

theorem scalar_field_hit_some (t : Json) (s : String)
    (h : MetaToTxt.scalar_field_hit t = some s) : stripped_nonblank s := by
  obtain ⟨k, hk, hks⟩ := List.exists_of_findSome?_eq_some h
  cases hv : Json.get t k with
  | none => rw [hv] at hks; simp at hks
  | some v =>
    rw [hv] at hks
    cases v with
    | str v2 =>
      by_cases hb : pyStrip v2 = ""
      · simp [hb] at hks
      · simp [hb] at hks
        refine ⟨by rw [← hks]; exact hb, ?_⟩
        rw [← hks]
        exact pyStrip_idem v2
    | null => simp at hks
    | bool b => simp at hks
    | num n => simp at hks
    | arr xs => simp at hks
    | obj kvs => simp at hks

theorem join_text_array_stripped (v : Option Json) (s : String)
    (hne : s ≠ "") (h : MetaToTxt.join_text_array v = s) : pyStrip s = s := by
  cases v with
  | none => exact absurd h.symm hne
  | some j =>
    cases j with
    | arr elems =>
      rw [MetaToTxt.join_text_array] at h
      rw [← h]
      exact pyStrip_idem _
    | null => exact absurd h.symm hne
    | bool b => exact absurd h.symm hne
    | num n => exact absurd h.symm hne
    | str s2 => exact absurd h.symm hne
    | obj kvs => exact absurd h.symm hne

theorem array_fields_hit_some (t : Json) (s : String)
    (h : MetaToTxt.array_fields_hit t = some s) : stripped_nonblank s := by
  obtain ⟨k, hk, hks⟩ := List.exists_of_findSome?_eq_some h
  by_cases hb : MetaToTxt.join_text_array (Json.get t k) = ""
  · simp [hb] at hks
  · simp [hb] at hks
    refine ⟨by rw [← hks]; exact hb, ?_⟩
    exact join_text_array_stripped (Json.get t k) s (by rw [← hks]; exact hb) hks

theorem dict_stage_some (raw : Json) (s : String)
    (h : MetaToTxt.dict_stage raw = some s) : stripped_nonblank s := by
  unfold MetaToTxt.dict_stage at h
  cases raw with
  | obj kvs =>
    rcases option_orElse_eq_some _ _ _ h with h1 | h1
    · rcases option_orElse_eq_some _ _ _ h1 with h2 | h2
      · cases hg : Json.get (.obj kvs) ("transcript") with
        | none => rw [hg] at h2; simp at h2
        | some tv =>
          rw [hg] at h2
          cases tv with
          | obj tkvs =>
            rcases option_orElse_eq_some _ _ _ h2 with h3 | h3
            · exact scalar_field_hit_some _ s h3
            · exact array_fields_hit_some _ s h3
          | null => simp at h2
          | bool b => simp at h2
          | num n => simp at h2
          | str s2 => simp at h2
          | arr xs => simp at h2
      · cases ht : Json.get (.obj kvs) ("text") with
        | none => rw [ht] at h2; simp at h2
        | some tv =>
          rw [ht] at h2
          cases tv with
          | str v =>
            by_cases hb : pyStrip v = ""
            · simp [hb] at h2
            · simp [hb] at h2
              refine ⟨by rw [← h2]; exact hb, ?_⟩
              rw [← h2]
              exact pyStrip_idem v
          | null => simp at h2
          | bool b => simp at h2
          | num n => simp at h2
          | arr xs => simp at h2
          | obj kvs2 => simp at h2
    · exact array_fields_hit_some _ s h1
  | null => simp at h
  | bool b => simp at h
  | num n => simp at h
  | str s2 => simp at h
  | arr xs => simp at h

theorem deep_rec_kvs_preserves (m : Nat) :
    ∀ kvs : List (String × Json),
      (∀ kv ∈ kvs, ∀ out : List String, (∀ s ∈ out, stripped_nonblank s) →
        ∀ s ∈ MetaToTxt.deep_rec m kv.2 out, stripped_nonblank s) →
      ∀ out : List String, (∀ s ∈ out, stripped_nonblank s) →
        ∀ s ∈ MetaToTxt.deep_rec_kvs m kvs out, stripped_nonblank s := by
  intro kvs
  induction kvs with
  | nil =>
    intro _ out hout s hs
    rw [MetaToTxt.deep_rec_kvs] at hs
    exact hout s hs
  | cons kv t ih =>
    intro hall out hout s hs
    obtain ⟨k1, v1⟩ := kv
    rw [MetaToTxt.deep_rec_kvs] at hs
    exact ih (fun kv2 hkv2 => hall kv2 (by simp [hkv2]))
      (MetaToTxt.deep_rec m v1 out)
      (hall (k1, v1) (by simp) out hout)
      s hs

theorem deep_rec_list_preserves (m : Nat) :
    ∀ xs : List Json,
      (∀ x ∈ xs, ∀ out : List String, (∀ s ∈ out, stripped_nonblank s) →
        ∀ s ∈ MetaToTxt.deep_rec m x out, stripped_nonblank s) →
      ∀ out : List String, (∀ s ∈ out, stripped_nonblank s) →
        ∀ s ∈ MetaToTxt.deep_rec_list m xs out, stripped_nonblank s := by
  intro xs
  induction xs with
  | nil =>
    intro _ out hout s hs
    rw [MetaToTxt.deep_rec_list] at hs
    exact hout s hs
  | cons v t ih =>
    intro hall out hout s hs
    rw [MetaToTxt.deep_rec_list] at hs
    exact ih (fun x hx => hall x (by simp [hx]))
      (MetaToTxt.deep_rec m v out)
      (hall v (by simp) out hout)
      s hs

theorem deep_rec_preserves (m : Nat) :
    ∀ x : Json, ∀ out : List String, (∀ s ∈ out, stripped_nonblank s) →
      ∀ s ∈ MetaToTxt.deep_rec m x out, stripped_nonblank s := by
  intro x
  refine json_induction
    (fun x => ∀ out : List String, (∀ s ∈ out, stripped_nonblank s) →
      ∀ s ∈ MetaToTxt.deep_rec m x out, stripped_nonblank s) ?_ ?_ ?_ ?_ ?_ ?_ x
  · intro out hout s hs
    unfold MetaToTxt.deep_rec at hs
    by_cases hlen : out.length ≥ m
    · rw [if_pos hlen] at hs; exact hout s hs
    · rw [if_neg hlen] at hs; exact hout s hs
  · intro b out hout s hs
    unfold MetaToTxt.deep_rec at hs
    by_cases hlen : out.length ≥ m
    · rw [if_pos hlen] at hs; exact hout s hs
    · rw [if_neg hlen] at hs; exact hout s hs
  · intro n out hout s hs
    unfold MetaToTxt.deep_rec at hs
    by_cases hlen : out.length ≥ m
    · rw [if_pos hlen] at hs; exact hout s hs
    · rw [if_neg hlen] at hs; exact hout s hs
  · intro s2 out hout s hs
    unfold MetaToTxt.deep_rec at hs
    by_cases hlen : out.length ≥ m
    · rw [if_pos hlen] at hs; exact hout s hs
    · rw [if_neg hlen] at hs; exact hout s hs
  · intro xs hmem out hout s hs
    unfold MetaToTxt.deep_rec at hs
    by_cases hlen : out.length ≥ m
    · rw [if_pos hlen] at hs; exact hout s hs
    · rw [if_neg hlen] at hs
      exact deep_rec_list_preserves m xs hmem out hout s hs
  · intro kvs hmem out hout s hs
    unfold MetaToTxt.deep_rec at hs
    by_cases hlen : out.length ≥ m
    · rw [if_pos hlen] at hs; exact hout s hs
    · rw [if_neg hlen] at hs
      have hout1 : ∀ s2 ∈ (match Json.get (Json.obj kvs) ("text") with
          | some (.str v) => if pyStrip v = "" then out else out ++ [pyStrip v]
          | _ => out), stripped_nonblank s2 := by
        cases htext : Json.get (Json.obj kvs) ("text") with
        | none => simpa using hout
        | some tv =>
          cases tv with
          | str v =>
            by_cases hb : pyStrip v = ""
            · simpa [hb] using hout
            · simp only [hb, if_neg hb]
              intro s2 hs2
              rcases List.mem_append.mp hs2 with h1 | h1
              · exact hout s2 h1
              · have hv : s2 = pyStrip v := by simpa using h1
                subst hv
                exact ⟨hb, pyStrip_idem v⟩
          | null => simpa using hout
          | bool b => simpa using hout
          | num n => simpa using hout
          | arr xs => simpa using hout
          | obj kvs2 => simpa using hout
      exact deep_rec_kvs_preserves m kvs hmem _ hout1 s hs

theorem mem_dedup_adjacent_aux : ∀ (prev : String) (l : List String) (s : String),
    s ∈ dedup_adjacent_aux prev l → s ∈ l := by
  intro prev l
  induction l generalizing prev with
  | nil => intro s hs; simp [dedup_adjacent_aux] at hs
  | cons a t ih =>
    intro s hs
    rw [dedup_adjacent_aux] at hs
    by_cases h : a = prev
    · rw [if_pos h] at hs
      exact List.mem_cons_of_mem a (ih prev s hs)
    · rw [if_neg h] at hs
      rcases List.mem_cons.mp hs with h1 | h1
      · exact h1 ▸ List.mem_cons_self a t
      · exact List.mem_cons_of_mem a (ih a s h1)

theorem mem_dedup_adjacent (l : List String) (s : String)
    (h : s ∈ dedup_adjacent l) : s ∈ l := by
  cases l with
  | nil => simp [dedup_adjacent] at h
  | cons a t =>
    rw [dedup_adjacent] at h
    rcases List.mem_cons.mp h with h1 | h1
    · exact h1 ▸ List.mem_cons_self a t
    · exact List.mem_cons_of_mem a (mem_dedup_adjacent_aux a t s h1)

theorem deep_collect_elements (raw : Json) (mc : Nat) :
    ∀ s ∈ MetaToTxt.deep_collect_text_fields raw mc, stripped_nonblank s := by
  intro s hs
  unfold MetaToTxt.deep_collect_text_fields at hs
  have hs2 := mem_dedup_adjacent _ s hs
  exact deep_rec_preserves mc raw [] (by simp) s hs2

theorem deep_stage_some (raw : Json) (s : String)
    (h : MetaToTxt.deep_stage raw = some s) : stripped_nonblank s := by
  unfold MetaToTxt.deep_stage at h
  cases hch : MetaToTxt.deep_collect_text_fields raw 50000 with
  | nil => rw [hch] at h; simp at h
  | cons a t =>
    rw [hch] at h
    have hs : pyStrip (joinNL (a :: t)) = s := by simpa using h
    have hall : ∀ u ∈ (a :: t), stripped_nonblank u := by
      intro u hu
      exact deep_collect_elements raw 50000 u (by rw [hch]; exact hu)
    constructor
    · rw [← hs]
      exact pyStrip_joinNL_ne_empty (a :: t) (by simp) hall
    · rw [← hs]
      exact pyStrip_idem _

/-- C10: whenever `extract_text_from_raw_transcript` returns a string
rather than failing, that string is non-empty (hence not whitespace-only)
and carries no leading or trailing whitespace: every fallback stage strips
what it returns, and the deep-collection stage only joins non-blank
stripped fragments. -/
theorem C10_extract_output_stripped :
    ∀ (raw : Json) (s : String),
      MetaToTxt.extract_text_from_raw_transcript raw = some s →
      s ≠ "" ∧ pyStrip s = s := by
  intro raw s h
  unfold MetaToTxt.extract_text_from_raw_transcript at h
  rcases option_orElse_eq_some _ _ _ h with h1 | h1
  · exact dict_stage_some raw s h1
  · exact deep_stage_some raw s h1

/-- C10 witness: the first example payload's output is non-blank and
stripped. -/
theorem C10_extract_output_stripped_witness :
    MetaToTxt.extract_text_from_raw_transcript ex_transcript_hello =
      some ("Hello") ∧
    (("Hello" : String) ≠ "" ∧ pyStrip ("Hello") = "Hello") :=
  ⟨rfl, C10_extract_output_stripped ex_transcript_hello ("Hello") rfl⟩

/-! ## C5: the deep-collection stage and its 50000-chunk cap -/

theorem deep_rec_list_eq_spec (m : Nat) :
    ∀ xs : List Json,
      (∀ x ∈ xs, ∀ out : List String,
        out.length + (spec_collect_texts x).length ≤ m →
        MetaToTxt.deep_rec m x out = out ++ spec_collect_texts x) →
      ∀ out : List String,
        out.length + (spec_collect_list xs).length ≤ m →
        MetaToTxt.deep_rec_list m xs out = out ++ spec_collect_list xs := by
  intro xs
  induction xs with
  | nil =>
    intro _ out hlen
    rw [MetaToTxt.deep_rec_list, spec_collect_list]
    simp
  | cons v t ih =>
    intro hall out hlen
    rw [MetaToTxt.deep_rec_list, spec_collect_list]
    rw [spec_collect_list] at hlen
    simp only [List.length_append] at hlen
    have h1 : MetaToTxt.deep_rec m v out = out ++ spec_collect_texts v :=
      hall v (by simp) out (by omega)
    rw [h1]
    rw [ih (fun x hx => hall x (by simp [hx])) (out ++ spec_collect_texts v)
      (by simp only [List.length_append]; omega)]
    simp

theorem deep_rec_kvs_eq_spec (m : Nat) :
    ∀ kvs : List (String × Json),
      (∀ kv ∈ kvs, ∀ out : List String,
        out.length + (spec_collect_texts kv.2).length ≤ m →
        MetaToTxt.deep_rec m kv.2 out = out ++ spec_collect_texts kv.2) →
      ∀ out : List String,
        out.length + (spec_collect_kvs kvs).length ≤ m →
        MetaToTxt.deep_rec_kvs m kvs out = out ++ spec_collect_kvs kvs := by
  intro kvs
  induction kvs with
  | nil =>
    intro _ out hlen
    rw [MetaToTxt.deep_rec_kvs, spec_collect_kvs]
    simp
  | cons kv t ih =>
    intro hall out hlen
    obtain ⟨k1, v1⟩ := kv
    rw [MetaToTxt.deep_rec_kvs, spec_collect_kvs]
    rw [spec_collect_kvs] at hlen
    simp only [List.length_append] at hlen
    have h1 : MetaToTxt.deep_rec m v1 out = out ++ spec_collect_texts v1 :=
      hall (k1, v1) (by simp) out
        (by show out.length + (spec_collect_texts v1).length ≤ m; omega)
    rw [h1]
    rw [ih (fun kv2 hkv2 => hall kv2 (by simp [hkv2])) (out ++ spec_collect_texts v1)
      (by simp only [List.length_append]; omega)]
    simp

theorem deep_rec_eq_spec (m : Nat) :
    ∀ x : Json, ∀ out : List String,
      out.length + (spec_collect_texts x).length ≤ m →
      MetaToTxt.deep_rec m x out = out ++ spec_collect_texts x := by
  intro x
  refine json_induction
    (fun x => ∀ out : List String,
      out.length + (spec_collect_texts x).length ≤ m →
      MetaToTxt.deep_rec m x out = out ++ spec_collect_texts x) ?_ ?_ ?_ ?_ ?_ ?_ x
  · intro out _
    unfold MetaToTxt.deep_rec
    by_cases hlen : out.length ≥ m
    · rw [if_pos hlen]; simp [spec_collect_texts]
    · rw [if_neg hlen]; simp [spec_collect_texts]
  · intro b out _
    unfold MetaToTxt.deep_rec
    by_cases hlen : out.length ≥ m
    · rw [if_pos hlen]; simp [spec_collect_texts]
    · rw [if_neg hlen]; simp [spec_collect_texts]
  · intro n out _
    unfold MetaToTxt.deep_rec
    by_cases hlen : out.length ≥ m
    · rw [if_pos hlen]; simp [spec_collect_texts]
    · rw [if_neg hlen]; simp [spec_collect_texts]
  · intro s out _
    unfold MetaToTxt.deep_rec
    by_cases hlen : out.length ≥ m
    · rw [if_pos hlen]; simp [spec_collect_texts]
    · rw [if_neg hlen]; simp [spec_collect_texts]
  · intro xs hmem out hbound
    unfold MetaToTxt.deep_rec
    have hspec : spec_collect_texts (.arr xs) = spec_collect_list xs := rfl
    by_cases hlen : out.length ≥ m
    · rw [if_pos hlen]
      have hzero : (spec_collect_texts (Json.arr xs)).length = 0 := by omega
      rw [List.length_eq_zero] at hzero
      rw [hzero]
      simp
    · rw [if_neg hlen]
      rw [hspec] at hbound ⊢
      exact deep_rec_list_eq_spec m xs hmem out hbound
  · intro kvs hmem out hbound
    unfold MetaToTxt.deep_rec
    by_cases hlen : out.length ≥ m
    · rw [if_pos hlen]
      have hzero : (spec_collect_texts (Json.obj kvs)).length = 0 := by omega
      rw [List.length_eq_zero] at hzero
      rw [hzero]
      simp
    · rw [if_neg hlen]
      have hspec : spec_collect_texts (.obj kvs) =
          (match (Json.obj kvs).get ("text") with
           | some (.str v) => if pyStrip v = "" then [] else [pyStrip v]
           | _ => []) ++ spec_collect_kvs kvs := rfl
      have hout1 : (match (Json.obj kvs).get ("text") with
          | some (.str v) => if pyStrip v = "" then out else out ++ [pyStrip v]
          | _ => out) = out ++ (match (Json.obj kvs).get ("text") with
          | some (.str v) => if pyStrip v = "" then [] else [pyStrip v]
          | _ => []) := by
        cases htext : (Json.obj kvs).get ("text") with
        | none => simp
        | some tv =>
          cases tv with
          | str v => by_cases hb : pyStrip v = "" <;> simp [hb]
          | null => simp
          | bool b => simp
          | num n => simp
          | arr xs => simp
          | obj kvs2 => simp
      show MetaToTxt.deep_rec_kvs m kvs
          (match (Json.obj kvs).get ("text") with
           | some (.str v) => if pyStrip v = "" then out else out ++ [pyStrip v]
           | _ => out) = out ++ spec_collect_texts (Json.obj kvs)
      rw [hout1, hspec]
      rw [hspec] at hbound
      rw [deep_rec_kvs_eq_spec m kvs hmem _ (by
        simp only [List.length_append] at hbound ⊢
        omega)]
      rw [List.append_assoc]

theorem deep_stage_eq_spec5 (raw : Json)
    (hlen : (spec_collect_texts raw).length ≤ 50000) :
    MetaToTxt.deep_stage raw = spec_step5 raw := by
  unfold MetaToTxt.deep_stage spec_step5 MetaToTxt.deep_collect_text_fields
  rw [deep_rec_eq_spec 50000 raw [] (by simpa using hlen)]
  rw [List.nil_append]

/-- The claim's deep-collection example payload. -/
def ex_deep_nested : Json :=
  .obj [("a", .obj [("text", .str ("X"))]),
        ("b", .arr [.obj [("text", .str ("X"))], .obj [("text", .str ("Y"))]])]

/-- C5 (amended): on a payload on which steps 1-4 produce nothing, the
final stage collects the non-blank `text`-keyed strings depth-first UP TO
the 50000-chunk cap; whenever at most 50000 such strings exist the
collection is complete and the result is the adjacent-deduplicated,
newline-joined, stripped sequence of all of them, as on the example
payload, which yields `"X\nY"`. -/
theorem C5_deep_collection :
    (∀ raw : Json, MetaToTxt.dict_stage raw = none →
      (spec_collect_texts raw).length ≤ 50000 →
      MetaToTxt.extract_text_from_raw_transcript raw = spec_step5 raw) ∧
    MetaToTxt.extract_text_from_raw_transcript ex_deep_nested = some ("X\nY") := by
  refine ⟨?_, rfl⟩
  intro raw hdict hlen
  unfold MetaToTxt.extract_text_from_raw_transcript
  rw [hdict]
  rw [show ((none : Option String) <|> MetaToTxt.deep_stage raw) =
    MetaToTxt.deep_stage raw from rfl]
  exact deep_stage_eq_spec5 raw hlen

/-- C5 witness: the amended clause instantiated at the example payload. -/
theorem C5_deep_collection_witness :
    (MetaToTxt.dict_stage ex_deep_nested = none ∧
      (spec_collect_texts ex_deep_nested).length ≤ 50000) ∧
    MetaToTxt.extract_text_from_raw_transcript ex_deep_nested =
      spec_step5 ex_deep_nested :=
  ⟨⟨rfl, by decide⟩,
   C5_deep_collection.1 ex_deep_nested rfl (by decide)⟩

/-- A one-field object carrying a non-blank `text` string. -/
def text_obj (s : String) : Json := .obj [("text", .str s)]

/-- `n` alternating `a`/`b` pairs of `text` objects. -/
def altBlocks : Nat → List Json
  | 0 => []
  | n + 1 => text_obj ("a") :: text_obj ("b") :: altBlocks n

/-- The texts those pairs carry. -/
def abTexts : Nat → List String
  | 0 => []
  | n + 1 => "a" :: "b" :: abTexts n

/-- A payload with 50001 non-blank `text` fields and no adjacent
duplicates: one more than the collection cap. -/
def big_payload : Json := .arr (altBlocks 25000 ++ [text_obj ("a")])

theorem spec_collect_list_append : ∀ xs ys : List Json,
    spec_collect_list (xs ++ ys) = spec_collect_list xs ++ spec_collect_list ys := by
  intro xs ys
  induction xs with
  | nil => simp [spec_collect_list]
  | cons v t ih =>
    rw [List.cons_append, spec_collect_list, spec_collect_list, ih, List.append_assoc]

theorem spec_collect_altBlocks : ∀ n : Nat,
    spec_collect_list (altBlocks n) = abTexts n := by
  intro n
  induction n with
  | zero => rfl
  | succ n ih =>
    rw [altBlocks, abTexts]
    rw [spec_collect_list, spec_collect_list, ih]
    rfl

theorem abTexts_length : ∀ n : Nat, (abTexts n).length = 2 * n := by
  intro n
  induction n with
  | zero => rfl
  | succ n ih =>
    rw [abTexts]
    simp only [List.length_cons, ih]
    omega

theorem spec_collect_big_payload :
    spec_collect_texts big_payload = abTexts 25000 ++ ["a"] := by
  show spec_collect_list (altBlocks 25000 ++ [text_obj ("a")]) = _
  rw [spec_collect_list_append, spec_collect_altBlocks]
  rfl

theorem dedup_aux_abTexts : ∀ n : Nat,
    dedup_adjacent_aux ("b") (abTexts n ++ ["a"]) = abTexts n ++ ["a"] := by
  intro n
  induction n with
  | zero =>
    show dedup_adjacent_aux ("b") ["a"] = ["a"]
    rw [dedup_adjacent_aux, if_neg (by decide), dedup_adjacent_aux]
  | succ n ih =>
    show dedup_adjacent_aux ("b") ("a" :: "b" :: (abTexts n ++ ["a"])) = _
    rw [dedup_adjacent_aux, if_neg (by decide),
      dedup_adjacent_aux, if_neg (by decide), ih]
    rfl

theorem dedup_abTexts_succ (n : Nat) :
    dedup_adjacent (abTexts (n + 1) ++ ["a"]) = abTexts (n + 1) ++ ["a"] := by
  show dedup_adjacent ("a" :: "b" :: (abTexts n ++ ["a"])) = _
  rw [dedup_adjacent, dedup_adjacent_aux, if_neg (by decide), dedup_aux_abTexts]
  rfl

theorem dedup_adjacent_aux_len : ∀ (prev : String) (l : List String),
    (dedup_adjacent_aux prev l).length ≤ l.length := by
  intro prev l
  induction l generalizing prev with
  | nil => simp [dedup_adjacent_aux]
  | cons a t ih =>
    rw [dedup_adjacent_aux]
    by_cases h : a = prev
    · rw [if_pos h]
      calc (dedup_adjacent_aux prev t).length ≤ t.length := ih prev
      _ ≤ (a :: t).length := by simp
    · rw [if_neg h]
      simp only [List.length_cons]
      exact Nat.succ_le_succ (ih a)

theorem dedup_adjacent_len (l : List String) :
    (dedup_adjacent l).length ≤ l.length := by
  cases l with
  | nil => simp [dedup_adjacent]
  | cons a t =>
    rw [dedup_adjacent]
    simp only [List.length_cons]
    exact Nat.succ_le_succ (dedup_adjacent_aux_len a t)

theorem deep_rec_list_len_le (m : Nat) :
    ∀ xs : List Json,
      (∀ x ∈ xs, ∀ out : List String, out.length ≤ m →
        (MetaToTxt.deep_rec m x out).length ≤ m) →
      ∀ out : List String, out.length ≤ m →
        (MetaToTxt.deep_rec_list m xs out).length ≤ m := by
  intro xs
  induction xs with
  | nil => intro _ out hout; rw [MetaToTxt.deep_rec_list]; exact hout
  | cons v t ih =>
    intro hall out hout
    rw [MetaToTxt.deep_rec_list]
    exact ih (fun x hx => hall x (by simp [hx])) _ (hall v (by simp) out hout)

theorem deep_rec_kvs_len_le (m : Nat) :
    ∀ kvs : List (String × Json),
      (∀ kv ∈ kvs, ∀ out : List String, out.length ≤ m →
        (MetaToTxt.deep_rec m kv.2 out).length ≤ m) →
      ∀ out : List String, out.length ≤ m →
        (MetaToTxt.deep_rec_kvs m kvs out).length ≤ m := by
  intro kvs
  induction kvs with
  | nil => intro _ out hout; rw [MetaToTxt.deep_rec_kvs]; exact hout
  | cons kv t ih =>
    intro hall out hout
    obtain ⟨k1, v1⟩ := kv
    rw [MetaToTxt.deep_rec_kvs]
    exact ih (fun kv2 hkv2 => hall kv2 (by simp [hkv2])) _
      (hall (k1, v1) (by simp) out hout)

theorem deep_rec_len_le (m : Nat) :
    ∀ x : Json, ∀ out : List String, out.length ≤ m →
      (MetaToTxt.deep_rec m x out).length ≤ m := by
  intro x
  refine json_induction
    (fun x => ∀ out : List String, out.length ≤ m →
      (MetaToTxt.deep_rec m x out).length ≤ m) ?_ ?_ ?_ ?_ ?_ ?_ x
  · intro out hout
    unfold MetaToTxt.deep_rec
    by_cases hlen : out.length ≥ m
    · rw [if_pos hlen]; exact hout
    · rw [if_neg hlen]; exact hout
  · intro b out hout
    unfold MetaToTxt.deep_rec
    by_cases hlen : out.length ≥ m
    · rw [if_pos hlen]; exact hout
    · rw [if_neg hlen]; exact hout
  · intro n out hout
    unfold MetaToTxt.deep_rec
    by_cases hlen : out.length ≥ m
    · rw [if_pos hlen]; exact hout
    · rw [if_neg hlen]; exact hout
  · intro s out hout
    unfold MetaToTxt.deep_rec
    by_cases hlen : out.length ≥ m
    · rw [if_pos hlen]; exact hout
    · rw [if_neg hlen]; exact hout
  · intro xs hmem out hout
    unfold MetaToTxt.deep_rec
    by_cases hlen : out.length ≥ m
    · rw [if_pos hlen]; exact hout
    · rw [if_neg hlen]
      exact deep_rec_list_len_le m xs hmem out hout
  · intro kvs hmem out hout
    unfold MetaToTxt.deep_rec
    by_cases hlen : out.length ≥ m
    · rw [if_pos hlen]; exact hout
    · rw [if_neg hlen]
      apply deep_rec_kvs_len_le m kvs hmem
      cases htext : (Json.obj kvs).get ("text") with
      | none => exact hout
      | some tv =>
        cases tv with
        | str v =>
          by_cases hb : pyStrip v = ""
          · simp only [hb, if_pos rfl]
            exact hout
          · simp only [if_neg hb]
            simp only [List.length_append, List.length_singleton]
            omega
        | null => exact hout
        | bool b => exact hout
        | num n => exact hout
        | arr xs => exact hout
        | obj kvs2 => exact hout

/-- Length of the full adjacent-deduplicated collection of an alternating
payload with `2(n+1)+1` text fields. -/
theorem big_len_generic (n : Nat) :
    (dedup_adjacent (spec_collect_texts
      (.arr (altBlocks (n + 1) ++ [text_obj ("a")])))).length = 2 * (n + 1) + 1 := by
  have e1 : spec_collect_texts (.arr (altBlocks (n + 1) ++ [text_obj ("a")])) =
      abTexts (n + 1) ++ ["a"] := by
    show spec_collect_list (altBlocks (n + 1) ++ [text_obj ("a")]) = _
    rw [spec_collect_list_append, spec_collect_altBlocks]
    rfl
  rw [e1, dedup_abTexts_succ n]
  simp [abTexts_length]

/-- C5 counterexample: on a payload carrying 50001 non-blank, adjacently
distinct `text` strings — and on which steps 1-4 produce nothing — the
collection stage does NOT collect every such string: its capped output has
at most 50000 chunks while the claim's full adjacent-deduplicated
collection has 50001. -/
theorem C5_cap_counterexample :
    MetaToTxt.dict_stage big_payload = none ∧
    MetaToTxt.deep_collect_text_fields big_payload 50000 ≠
      dedup_adjacent (spec_collect_texts big_payload) := by
  refine ⟨rfl, ?_⟩
  intro heq
  have h1 : (MetaToTxt.deep_collect_text_fields big_payload 50000).length ≤ 50000 := by
    unfold MetaToTxt.deep_collect_text_fields
    exact le_trans (dedup_adjacent_len _)
      (deep_rec_len_le 50000 big_payload [] (by simp))
  have h2 : (dedup_adjacent (spec_collect_texts big_payload)).length = 50001 := by
    exact big_len_generic 24999
  rw [heq, h2] at h1
  omega

end Quartr
